import Mathlib

/-!
# A verification model of the `wtf` dial service

This file gives a shallow embedding, in Lean, of the domain-service layer of
the `wtf` repository (the `wtf` root package, the `sqlite` store and the
`inmem` event bus), together with theorems settling the specification claims.

Modelling conventions:

* Go `int` values (ids, dial values) are Lean `Int`; Go `time.Time` and
  `time.Duration` are `Int` counts of seconds since the Go zero time.
* SQL tables are Lean lists of row structures kept in insertion order; a query
  `ORDER BY` is a stable merge sort, `LIMIT`/`OFFSET` are `take`/`drop`.
* A transaction is explicit state passing of the `DB` value plus the frozen
  `now` timestamp captured by `BeginTx`; `tx.Commit` corresponds to returning
  the updated `DB`, a returned error corresponds to rollback (the caller keeps
  the old `DB`).
* Fallible Go functions become `Except Error`; Go panics (such as `make` with
  a negative length) are modelled as `Option` with `none` for the panic.
* `EventService.PublishEvent` calls made inside a transaction are logged in
  the `published` field of the `DB` state.
* Go `a / b` on integers and durations truncates toward zero (`Int.tdiv`);
  Go `Time.Truncate(d)` rounds down to a multiple of `d` (`Int.fdiv`).
-/

namespace Wtf

/-- Absolute time, seconds since the Go zero time (`time.Time`). -/
abbrev Time := Int

/-- A span of time in seconds (`time.Duration`). -/
abbrev Duration := Int

/-- One minute, the history-bucket resolution (`1 * time.Minute`). -/
def oneMinute : Duration := 60

/-- Go `t.Truncate(d)`: the result of rounding `t` down to a multiple of `d`
since the zero time; `t` unchanged when `d <= 0`. -/
def timeTruncate (t : Time) (d : Duration) : Time :=
  if d ≤ 0 then t else d * Int.fdiv t d

/-- Error codes from `wtf/error.go`. -/
inductive ErrorCode where
  | EINVALID
  | EUNAUTHORIZED
  | ENOTFOUND
  | ECONFLICT
  | ENOTIMPLEMENTED
  | EINTERNAL
deriving DecidableEq, Repr

/-- `wtf.Error`: an error code plus a human-readable message. -/
structure Error where
  code : ErrorCode
  message : String
deriving DecidableEq, Repr

/-- Event type constant `wtf.EventTypeDialValueChanged`. -/
def EventTypeDialValueChanged : String := "dial:value_changed"

/-- Event type constant `wtf.EventTypeDialMembershipValueChanged`. -/
def EventTypeDialMembershipValueChanged : String := "dial_membership:value_changed"

/-- Payloads of the two defined event types (`wtf/event.go`). -/
inductive EventPayload where
  | dialValueChanged (id : Int) (value : Int)
  | dialMembershipValueChanged (id : Int) (value : Int)
deriving DecidableEq, Repr

/-- `wtf.Event`: a tagged value `{type, payload}`. -/
structure Event where
  type : String
  payload : EventPayload
deriving DecidableEq, Repr

/-- A row of the `users` table (`wtf.User`, persistence-relevant fields). -/
structure User where
  id : Int
  name : String
  email : String
  apiKey : String
  createdAt : Time
  updatedAt : Time
deriving DecidableEq, Repr

/-- A row of the `dials` table (`wtf.Dial`; the attached `User` association is
resolved on read and is not part of the row). -/
structure Dial where
  id : Int
  userID : Int
  name : String
  inviteCode : String
  value : Int
  createdAt : Time
  updatedAt : Time
deriving DecidableEq, Repr

/-- A row of the `dial_memberships` table (`wtf.DialMembership`; the attached
`Dial`/`User` associations are resolved on read and are not part of the row). -/
structure DialMembership where
  id : Int
  dialID : Int
  userID : Int
  value : Int
  createdAt : Time
  updatedAt : Time
deriving DecidableEq, Repr

/-- A row of the `dial_values` history table: `(dial_id, timestamp, value)`. -/
structure DialValueRow where
  dialID : Int
  timestamp : Time
  value : Int
deriving DecidableEq, Repr

/-- The persistent state plus the log of events published during committed
transactions. `dialSeq`/`membershipSeq` model SQLite row-id assignment
(`lastInsertID`). -/
structure DB where
  users : List User
  dials : List Dial
  dialMemberships : List DialMembership
  dialValues : List DialValueRow
  published : List (Int × Event)
  dialSeq : Int
  membershipSeq : Int
deriving DecidableEq, Repr

/-- The ambient request context: the logged-in user, when present
(`wtf.NewContextWithUser`). -/
abbrev Ctx := Option User

/-- `wtf.UserIDFromContext`: the ID of the current logged-in user, zero if no
user is logged in. -/
def userIDFromContext (ctx : Ctx) : Int :=
  match ctx with
  | some user => user.id
  | none => 0

/-- `wtf.MaxDialNameLen`. -/
def MaxDialNameLen : Nat := 100

/-- `(*wtf.Dial).Validate` (Lean `String.length` counts Unicode scalar values,
matching `utf8.RuneCountInString`). -/
def Dial.Validate (d : Dial) : Except Error Unit :=
  if d.name = "" then .error ⟨.EINVALID, "Dial name required."⟩
  else if d.name.length > MaxDialNameLen then .error ⟨.EINVALID, "Dial name too long."⟩
  else if d.userID = 0 then .error ⟨.EINVALID, "Dial creator required."⟩
  else .ok ()

/-- `(*wtf.DialMembership).Validate`. -/
def DialMembership.Validate (m : DialMembership) : Except Error Unit :=
  if m.dialID = 0 then .error ⟨.EINVALID, "Dial required for membership."⟩
  else if m.userID = 0 then .error ⟨.EINVALID, "User required for membership."⟩
  else if m.value < 0 ∨ m.value > 100 then .error ⟨.EINVALID, "Dial value must be between 0 & 100."⟩
  else .ok ()

/-- `wtf.CanEditDial`: only the dial owner can edit the dial. -/
def CanEditDial (ctx : Ctx) (dial : Dial) : Bool :=
  dial.userID == userIDFromContext ctx

/-- `sqlite.FormatLimitOffset` applied to a result list. Modelled from the
spec: the helper itself is not among the provided sources; the spec's filters
carry `offset`/`limit` paging where a positive limit restricts the page. -/
def formatLimitOffset (limit offset : Nat) (l : List α) : List α :=
  if limit > 0 then (l.drop offset).take limit
  else if offset > 0 then l.drop offset
  else l

/-- Insert an element into a sorted list, keeping `le` order. -/
def insertLe (le : α → α → Bool) (x : α) : List α → List α
  | [] => [x]
  | y :: ys => if le x y then x :: y :: ys else y :: insertLe le x ys

/-- Insertion sort modelling a SQL `ORDER BY` clause. SQLite promises no
particular order among rows that compare equal, so any sort respecting `le`
is a faithful model; this one is structurally recursive so that concrete
states evaluate inside the kernel. -/
def orderBy (le : α → α → Bool) : List α → List α
  | [] => []
  | x :: xs => insertLe le x (orderBy le xs)

/-- `wtf.UserFilter` (fields used by the modelled operations). -/
structure UserFilter where
  id : Option Int := none
  email : Option String := none
  apiKey : Option String := none
  offset : Nat := 0
  limit : Nat := 0

/-- `sqlite.findUsers`: rows matching the filter ordered by id, plus the total
matching count (`COUNT(*) OVER()`). -/
def findUsers (db : DB) (filter : UserFilter) : List User × Nat :=
  let matched := db.users.filter (fun u =>
    (filter.id.all (fun v => v == u.id)) &&
    (filter.email.all (fun v => v == u.email)) &&
    (filter.apiKey.all (fun v => v == u.apiKey)))
  let sorted := orderBy (fun a b => decide (a.id ≤ b.id)) matched
  (formatLimitOffset filter.limit filter.offset sorted, matched.length)

/-- `sqlite.findUserByID`: `ENOTFOUND` if the user does not exist. -/
def findUserByID (db : DB) (id : Int) : Except Error User :=
  match (findUsers db { id := some id }).1 with
  | [] => .error ⟨.ENOTFOUND, "User not found."⟩
  | user :: _ => .ok user

/-- `wtf.DialFilter`. -/
structure DialFilter where
  id : Option Int := none
  inviteCode : Option String := none
  offset : Nat := 0
  limit : Nat := 0

/-- `sqlite.findDials`: rows matching the filter ordered by id, plus the total
matching count. Visibility: when no invite code is supplied, results are
limited to dials the context user has a membership in
(`id IN (SELECT dial_id FROM dial_memberships dm WHERE dm.user_id = ?)`);
when an invite code is supplied, it alone is matched. -/
def findDials (ctx : Ctx) (db : DB) (filter : DialFilter) : List Dial × Nat :=
  let matched := db.dials.filter (fun d =>
    (filter.id.all (fun v => v == d.id)) &&
    (match filter.inviteCode with
     | some code => d.inviteCode == code
     | none => db.dialMemberships.any (fun m =>
         m.dialID == d.id && m.userID == userIDFromContext ctx)))
  let sorted := orderBy (fun a b => decide (a.id ≤ b.id)) matched
  (formatLimitOffset filter.limit filter.offset sorted, matched.length)

/-- `sqlite.findDialByID`: `ENOTFOUND` if the dial does not exist or is not
visible to the context user. -/
def findDialByID (ctx : Ctx) (db : DB) (id : Int) : Except Error Dial :=
  match (findDials ctx db { id := some id }).1 with
  | [] => .error ⟨.ENOTFOUND, "Dial not found."⟩
  | dial :: _ => .ok dial

/-- `sqlite.checkDialExists`: existence check without any permission gating. -/
def checkDialExists (db : DB) (id : Int) : Except Error Unit :=
  if db.dials.any (fun d => d.id == id) then .ok ()
  else .error ⟨.ENOTFOUND, "Dial not found."⟩

/-- `sqlite.attachDialAssociations`: look up the owner user of a dial
(the context carries no permission here; `findUserByID` is ungated). -/
def attachDialAssociations (db : DB) (dial : Dial) : Except Error User :=
  findUserByID db dial.userID

/-- `sqlite.insertDialValue`: record a dial value at a minute-truncated
timestamp; `ON CONFLICT (dial_id, "timestamp") DO UPDATE SET value = ?`
overwrites the bucket of an existing key. -/
def insertDialValue (db : DB) (id : Int) (value : Int) (timestamp : Time) : DB :=
  let ts := timeTruncate timestamp oneMinute
  if db.dialValues.any (fun r => r.dialID == id && r.timestamp == ts) then
    { db with dialValues := db.dialValues.map (fun r =>
        if r.dialID == id && r.timestamp == ts then { r with value := value } else r) }
  else
    { db with dialValues := db.dialValues ++ [{ dialID := id, timestamp := ts, value := value }] }

/-- `SELECT CAST(ROUND(IFNULL(AVG(value), 0)) AS INTEGER)` for a sum `s` of
`n` values. SQLite `ROUND` rounds half away from zero; written on integers:
for `0 ≤ s` the value is `⌊(2s+n)/(2n)⌋`, mirrored for negative sums. On the
value range stored by this program (each value in 0..100) the IEEE-double
`AVG` is exact at every half-way point, so exact rational rounding models it
faithfully. -/
def roundHalfAwayFromZero (s : Int) (n : Nat) : Int :=
  if 0 ≤ s then (2 * s + (n : Int)) / (2 * (n : Int))
  else -((2 * (-s) + (n : Int)) / (2 * (n : Int)))

/-- The aggregate value recomputed by `refreshDialValue`: the rounded average
of the membership values, `0` for an empty set (`IFNULL(AVG(value), 0)`). -/
def roundAvg (values : List Int) : Int :=
  if values.length = 0 then 0
  else roundHalfAwayFromZero values.sum values.length

/-- `sqlite.publishDialEvent`: publish an event to every member of a dial
(`EventService.PublishEvent` per membership row, logged in `published`). -/
def publishDialEvent (db : DB) (id : Int) (event : Event) : DB :=
  { db with published := db.published ++
      (db.dialMemberships.filter (fun m => m.dialID == id)).map (fun m => (m.userID, event)) }

/-- `sqlite.refreshDialValue`: recompute the aggregate value of a dial. If the
dial has been deleted (`sql.ErrNoRows`), skip silently. If the value is
unchanged, exit. Otherwise persist the value, bump `updated_at`, merge a
history bucket at the transaction time and publish a value-changed event. -/
def refreshDialValue (db : DB) (now : Time) (id : Int) : DB :=
  match db.dials.find? (fun d => d.id == id) with
  | none => db
  | some dial =>
    let newValue := roundAvg ((db.dialMemberships.filter (fun m => m.dialID == id)).map
      (fun m => m.value))
    if dial.value == newValue then db
    else
      let db1 := { db with dials := db.dials.map (fun d =>
        if d.id == id then { d with value := newValue, updatedAt := now } else d) }
      let db2 := insertDialValue db1 id newValue now
      publishDialEvent db2 id { type := EventTypeDialValueChanged,
                                payload := .dialValueChanged id newValue }

/-- `wtf.DialMembershipSortByUpdatedAtDesc`. -/
def DialMembershipSortByUpdatedAtDesc : String := "updated_at_desc"

/-- `wtf.DialMembershipFilter`. -/
structure DialMembershipFilter where
  id : Option Int := none
  dialID : Option Int := none
  userID : Option Int := none
  offset : Nat := 0
  limit : Nat := 0
  sortBy : String := ""

/-- `sqlite.findDialMemberships`: memberships matching the filter, inner-joined
with their dial and user rows (a membership whose dial or user row is missing
drops out of the join; under unique row ids `find?` is the join). Visibility:
the dial's owner or any user with a membership in the same dial. Sorting:
`updated_at` descending when requested, otherwise the context user's own
membership first and then user name ascending. -/
def findDialMemberships (ctx : Ctx) (db : DB) (filter : DialMembershipFilter) :
    List DialMembership × Nat :=
  let userID := userIDFromContext ctx
  let joined := db.dialMemberships.filterMap (fun m =>
    match db.dials.find? (fun d => d.id == m.dialID),
          db.users.find? (fun u => u.id == m.userID) with
    | some d, some u => some (m, d.userID, u.name)
    | _, _ => none)
  let matched := joined.filter (fun x =>
    (filter.id.all (fun v => v == x.1.id)) &&
    (filter.dialID.all (fun v => v == x.1.dialID)) &&
    (filter.userID.all (fun v => v == x.1.userID)) &&
    (x.2.1 == userID || db.dialMemberships.any (fun m1 =>
      m1.dialID == x.1.dialID && m1.userID == userID)))
  let sorted :=
    if filter.sortBy == DialMembershipSortByUpdatedAtDesc then
      orderBy (fun a b => decide (b.1.updatedAt ≤ a.1.updatedAt)) matched
    else
      orderBy (fun a b =>
        let ka : Int := if a.1.userID == userID then 0 else 1
        let kb : Int := if b.1.userID == userID then 0 else 1
        decide (ka < kb) || (ka == kb && decide (a.2.2 ≤ b.2.2))) matched
  (formatLimitOffset filter.limit filter.offset (sorted.map (fun x => x.1)), matched.length)

/-- `sqlite.findDialMembershipByID`: `ENOTFOUND` if the membership does not
exist or is not visible to the context user. -/
def findDialMembershipByID (ctx : Ctx) (db : DB) (id : Int) : Except Error DialMembership :=
  match (findDialMemberships ctx db { id := some id }).1 with
  | [] => .error ⟨.ENOTFOUND, "Dial membership not found."⟩
  | membership :: _ => .ok membership

/-- `sqlite.attachDialMembershipAssociations`: look up and return the
membership's dial (subject to dial visibility) and user. -/
def attachDialMembershipAssociations (ctx : Ctx) (db : DB) (membership : DialMembership) :
    Except Error (Dial × User) := do
  let dial ← findDialByID ctx db membership.dialID
  let user ← findUserByID db membership.userID
  return (dial, user)

/-- `sqlite.createDialMembership`: set timestamps, validate, check that the
dial exists (ungated) and the user exists, insert the row, then refresh the
parent dial's aggregate value. -/
def createDialMembership (db : DB) (now : Time) (membership : DialMembership) :
    Except Error (DialMembership × DB) := do
  let membership := { membership with createdAt := now, updatedAt := now }
  let () ← membership.Validate
  let () ← checkDialExists db membership.dialID
  let _ ← findUserByID db membership.userID
  let membership := { membership with id := db.membershipSeq }
  let db1 := { db with dialMemberships := db.dialMemberships ++ [membership],
                       membershipSeq := db.membershipSeq + 1 }
  let db2 := refreshDialValue db1 now membership.dialID
  return (membership, db2)

/-- `wtf.DialMembershipUpdate`. -/
structure DialMembershipUpdate where
  value : Option Int := none

/-- `sqlite.updateDialMembership`: only the membership's own user may update;
an unchanged value is a no-op (return before any write); otherwise update the
row, refresh the dial aggregate and publish a membership-value-changed event
to the dial members. -/
def updateDialMembership (ctx : Ctx) (db : DB) (now : Time) (id : Int)
    (upd : DialMembershipUpdate) : Except Error (DialMembership × DB) := do
  let membership ← findDialMembershipByID ctx db id
  if membership.userID ≠ userIDFromContext ctx then
    throw ⟨.EUNAUTHORIZED, "You do not have permission to update the dial membership."⟩
  let prev := membership
  let membership := match upd.value with
    | some v => { membership with value := v }
    | none => membership
  if prev.value = membership.value then
    return (membership, db)
  let membership := { membership with updatedAt := now }
  let () ← membership.Validate
  let db1 := { db with dialMemberships := db.dialMemberships.map (fun m =>
    if m.id == id then { m with value := membership.value, updatedAt := now } else m) }
  let db2 := refreshDialValue db1 now membership.dialID
  let db3 := publishDialEvent db2 membership.dialID
    { type := EventTypeDialMembershipValueChanged,
      payload := .dialMembershipValueChanged id membership.value }
  return (membership, db3)

/-- `sqlite.deleteDialMembership`: fetch the membership and its associations,
check that the principal owns the membership or the parent dial, refuse to
delete the dial owner's own membership, delete the row and refresh the dial
aggregate. -/
def deleteDialMembership (ctx : Ctx) (db : DB) (now : Time) (id : Int) : Except Error DB := do
  let userID := userIDFromContext ctx
  let membership ← findDialMembershipByID ctx db id
  let (dial, _) ← attachDialMembershipAssociations ctx db membership
  if membership.userID ≠ userID ∧ dial.userID ≠ userID then
    throw ⟨.EUNAUTHORIZED, "You do not have permission to delete the dial membership."⟩
  if membership.userID = dial.userID then
    throw ⟨.ECONFLICT, "Dial owner may not delete their own membership."⟩
  let db1 := { db with dialMemberships := db.dialMemberships.filter (fun m => !(m.id == id)) }
  return refreshDialValue db1 now membership.dialID

/-- `(*sqlite.DialMembershipService).CreateDialMembership`: requires a logged
in user, overwrites the membership's `user_id` with the principal's id,
creates it and attaches associations; commit on success. -/
def CreateDialMembership (ctx : Ctx) (db : DB) (now : Time) (membership : DialMembership) :
    Except Error (DialMembership × DB) := do
  let userID := userIDFromContext ctx
  if userID = 0 then
    throw ⟨.EUNAUTHORIZED, "You must be logged in to join a dial."⟩
  let membership := { membership with userID := userIDFromContext ctx }
  let (membership, db1) ← createDialMembership db now membership
  let _ ← attachDialMembershipAssociations ctx db1 membership
  return (membership, db1)

/-- `(*sqlite.DialMembershipService).UpdateDialMembership`. -/
def UpdateDialMembership (ctx : Ctx) (db : DB) (now : Time) (id : Int)
    (upd : DialMembershipUpdate) : Except Error (DialMembership × DB) := do
  let (membership, db1) ← updateDialMembership ctx db now id upd
  let _ ← attachDialMembershipAssociations ctx db1 membership
  return (membership, db1)

/-- `(*sqlite.DialMembershipService).DeleteDialMembership`. -/
def DeleteDialMembership (ctx : Ctx) (db : DB) (now : Time) (id : Int) : Except Error DB :=
  deleteDialMembership ctx db now id

/-- `sqlite.createDial`: generate the invite code (the random bytes enter as
the `inviteCode` argument), set timestamps, validate, insert the dial row
(whose `value` column takes the schema default `0`; the `INSERT` lists only
`user_id, name, invite_code, created_at, updated_at`), record the initial
history value `dial.Value` at the creation timestamp and create the owner's
self-membership. -/
def createDial (db : DB) (now : Time) (inviteCode : String) (dial : Dial) :
    Except Error (Dial × DB) := do
  let dial := { dial with inviteCode := inviteCode, createdAt := now, updatedAt := now }
  let () ← dial.Validate
  let dial := { dial with id := db.dialSeq }
  let db1 := { db with dials := db.dials ++ [{ dial with value := 0 }],
                       dialSeq := db.dialSeq + 1 }
  let db2 := insertDialValue db1 dial.id dial.value now
  let (_, db3) ← createDialMembership db2 now
    { id := 0, dialID := dial.id, userID := dial.userID, value := 0, createdAt := 0, updatedAt := 0 }
  return (dial, db3)

/-- `(*sqlite.DialService).CreateDial`: requires a logged in user
(`EUNAUTHORIZED` otherwise), assigns the dial to the principal, creates it and
attaches the owner; commit on success. -/
def CreateDial (ctx : Ctx) (db : DB) (now : Time) (inviteCode : String) (dial : Dial) :
    Except Error (Dial × DB) := do
  let userID := userIDFromContext ctx
  if userID = 0 then
    throw ⟨.EUNAUTHORIZED, "You must be logged in to create a dial."⟩
  let dial := { dial with userID := userIDFromContext ctx }
  let (dial, db1) ← createDial db now inviteCode dial
  let _ ← attachDialAssociations db1 dial
  return (dial, db1)

/-- `wtf.DialUpdate`. -/
structure DialUpdate where
  name : Option String := none

/-- `sqlite.updateDial`: fetch (with visibility), check ownership, merge the
update, validate, persist `name` and `updated_at`. -/
def updateDial (ctx : Ctx) (db : DB) (now : Time) (id : Int) (upd : DialUpdate) :
    Except Error (Dial × DB) := do
  let dial ← findDialByID ctx db id
  if ¬ CanEditDial ctx dial then
    throw ⟨.EUNAUTHORIZED, "You must be the owner can edit a dial."⟩
  let dial := match upd.name with
    | some v => { dial with name := v }
    | none => dial
  let dial := { dial with updatedAt := now }
  let () ← dial.Validate
  let db1 := { db with dials := db.dials.map (fun d =>
    if d.id == id then { d with name := dial.name, updatedAt := now } else d) }
  return (dial, db1)

/-- `(*sqlite.DialService).UpdateDial`. -/
def UpdateDial (ctx : Ctx) (db : DB) (now : Time) (id : Int) (upd : DialUpdate) :
    Except Error (Dial × DB) := do
  let (dial, db1) ← updateDial ctx db now id upd
  let _ ← attachDialAssociations db1 dial
  return (dial, db1)

/-- `(*sqlite.DialService).FindDialByID`. -/
def FindDialByID (ctx : Ctx) (db : DB) (id : Int) : Except Error Dial := do
  let dial ← findDialByID ctx db id
  let _ ← attachDialAssociations db dial
  return dial

/-- `(*sqlite.DialService).FindDials`: fetch matching dials and attach the
owner user of each. -/
def FindDials (ctx : Ctx) (db : DB) (filter : DialFilter) : Except Error (List Dial × Nat) := do
  let (dials, n) := findDials ctx db filter
  let _ ← dials.mapM (fun d => attachDialAssociations db d)
  return (dials, n)

/-- `(*sqlite.DialService).SetDialMembershipValue`: resolve the principal's
membership of the dial (`ENOTFOUND` when absent) and dispatch to the
membership-update path. -/
def SetDialMembershipValue (ctx : Ctx) (db : DB) (now : Time) (dialID : Int) (value : Int) :
    Except Error DB := do
  let userID := userIDFromContext ctx
  let (memberships, _) := findDialMemberships ctx db
    { dialID := some dialID, userID := some userID }
  match memberships with
  | [] => throw ⟨.ENOTFOUND, "User is not a member of this dial."⟩
  | m :: _ => do
    let (_, db1) ← updateDialMembership ctx db now m.id { value := some value }
    return db1

/-- The backfill loop at the end of `findDialValueSlotsBetween`: left to
right, a slot still holding the `-1` empty marker receives the previously
seen value (`lastValue` starts at Go's zero value `0`). -/
def backfill (last : Int) : List Int → List Int
  | [] => []
  | v :: rest => if v ≠ -1 then v :: backfill v rest else last :: backfill last rest

/-- `sqlite.findDialValueSlotsBetween`: build `(finish-start)/interval` slots
marked empty (`-1`), seed slot 0 with the most recent history value at
`timestamp <= start` (`ORDER BY "timestamp" DESC LIMIT 1`, Go zero value `0`
when no row), place every history point of `[start, finish)` in ascending
timestamp order at slot `(ts-start)/interval`, then backfill the empty slots.
(`make` with a negative count cannot panic here: `AverageDialValueReport` has
already panicked on a negative slot count, so `Int.toNat` clamping is
unreachable for negatives.) -/
def findDialValueSlotsBetween (db : DB) (id : Int) (start finish : Time)
    (interval : Duration) : List Int :=
  let values := List.replicate (Int.tdiv (finish - start) interval).toNat (-1 : Int)
  if values.length = 0 then values
  else
    let seed :=
      match orderBy (fun a b => decide (b.timestamp ≤ a.timestamp))
          (db.dialValues.filter (fun r => r.dialID == id && decide (r.timestamp ≤ start))) with
      | [] => 0
      | r :: _ => r.value
    let values := values.set 0 seed
    let between := orderBy (fun a b => decide (a.timestamp ≤ b.timestamp))
      (db.dialValues.filter (fun r =>
        r.dialID == id && decide (start ≤ r.timestamp) && decide (r.timestamp < finish)))
    let values := between.foldl (fun vs r =>
      vs.set (Int.tdiv (r.timestamp - start) interval).toNat r.value) values
    backfill 0 values

/-- `wtf.DialValueRecord`: an average dial value at a point in time. -/
structure DialValueRecord where
  value : Int
  timestamp : Time
deriving DecidableEq, Repr

/-- `wtf.DialValueReport`. -/
structure DialValueReport where
  records : List DialValueRecord
deriving DecidableEq, Repr

/-- `(*sqlite.DialService).AverageDialValueReport`: truncate `start`/`finish`
to the interval, allocate `(finish-start)/interval` record slots (`none`
models the Go panic of `make` on a negative count), fetch the visible dials,
compute each dial's slot values and average them per slot with integer
division (0 with no dials). -/
def AverageDialValueReport (ctx : Ctx) (db : DB) (start finish : Time)
    (interval : Duration) : Option DialValueReport :=
  let start := timeTruncate start interval
  let finish := timeTruncate finish interval
  let slotN := Int.tdiv (finish - start) interval
  if slotN < 0 then none
  else
    let dials := (findDials ctx db {}).1
    let valuesSlice := dials.map (fun d => findDialValueSlotsBetween db d.id start finish interval)
    some ⟨(List.range slotN.toNat).map (fun i =>
      let avg := if dials.length = 0 then 0
        else Int.tdiv (valuesSlice.map (fun vs => vs.getD i 0)).sum valuesSlice.length
      { value := avg, timestamp := start + Int.ofNat i * interval })⟩

/-! ## Spec-side definitions for the report claim

These definitions follow the specification's wording of the slot construction
and the per-slot average, to be compared with the code-side
`findDialValueSlotsBetween`/`AverageDialValueReport` above. Empty slots are an
explicit `Option` marker instead of the code's `-1` sentinel, and the
specified `floor` is `Int.fdiv`. -/

/-- Spec side: "the most recent history value at timestamp <= start (0 if
none)" for one dial. -/
def specSeedValue (db : DB) (id : Int) (start : Time) : Int :=
  match (db.dialValues.filter (fun r => r.dialID == id && decide (r.timestamp ≤ start))).foldl
      (fun acc r => match acc with
        | none => some r
        | some a => if decide (a.timestamp < r.timestamp) then some r else some a) none with
  | none => 0
  | some r => r.value

/-- Spec side: "filling any slot still marked empty with the previously seen
value (carry-forward)". -/
def specCarryForward (last : Int) : List (Option Int) → List Int
  | [] => []
  | some v :: rest => v :: specCarryForward v rest
  | none :: rest => last :: specCarryForward last rest

/-- Spec side: a dial's length-`n` slot array — seed slot 0, place each
history point of `[start, finish)` at slot `floor((ts - start) / interval)`
in timestamp order, carry forward. -/
def specSlots (db : DB) (id : Int) (start finish : Time) (interval : Duration)
    (n : Nat) : List Int :=
  let seeded := (List.replicate n (none : Option Int)).set 0 (some (specSeedValue db id start))
  let rows := orderBy (fun a b => decide (a.timestamp ≤ b.timestamp))
    (db.dialValues.filter (fun r =>
      r.dialID == id && decide (start ≤ r.timestamp) && decide (r.timestamp < finish)))
  let placed := rows.foldl (fun vs r =>
    vs.set (Int.fdiv (r.timestamp - start) interval).toNat (some r.value)) seeded
  specCarryForward 0 placed

/-- Spec side: "avg_i = floor(sum_over_dials(values[i]) / dial_count)",
`0` with zero dials. -/
def specAvgAt (valuess : List (List Int)) (i : Nat) : Int :=
  if valuess.length = 0 then 0
  else Int.fdiv (valuess.map (fun vs => vs.getD i 0)).sum valuess.length

/-- Spec side: the whole report described by the claim — `N` records with
timestamps `start + i*interval` and the per-slot dial average. -/
def specReport (ctx : Ctx) (db : DB) (start finish : Time) (interval : Duration) :
    DialValueReport :=
  let start := timeTruncate start interval
  let finish := timeTruncate finish interval
  let n := (Int.tdiv (finish - start) interval).toNat
  let dials := (findDials ctx db {}).1
  let valuess := dials.map (fun d => specSlots db d.id start finish interval n)
  ⟨(List.range n).map (fun i =>
    { value := specAvgAt valuess i, timestamp := start + Int.ofNat i * interval })⟩

/-! ## The in-memory event bus (`inmem/event.go`)

A subscription's channel is a FIFO `queue` bounded by `EventBufferSize`;
`onceDone`/`closeCount` model the `sync.Once` guarding `close(sub.c)`;
`registered` models presence in the service's user→subscription map. The
service state keeps every subscription ever created, in creation order, so
that closing an already-evicted subscription is still expressible. All bus
operations run under the service mutex in Go and are modelled sequentially. -/

namespace Inmem

/-- `inmem.EventBufferSize`. -/
def EventBufferSize : Nat := 16

/-- `inmem.Subscription` together with its channel's observable state. -/
structure Subscription where
  userID : Int
  queue : List Event
  onceDone : Bool
  closeCount : Nat
  registered : Bool
deriving DecidableEq, Repr

/-- `inmem.EventService`: the registry of subscriptions. -/
structure EventService where
  subs : List Subscription
deriving DecidableEq, Repr

/-- The subscription built by `Subscribe`: empty buffered channel, tracked in
the user's subscription map. -/
def newSubscription (userID : Int) : Subscription :=
  { userID := userID, queue := [], onceDone := false, closeCount := 0, registered := true }

/-- `sub.once.Do(func() { close(sub.c) })`: close the channel only once. -/
def onceClose (s : Subscription) : Subscription :=
  if s.onceDone then s
  else { s with onceDone := true, closeCount := s.closeCount + 1 }

/-- `(*inmem.EventService).unsubscribe` as it acts on one subscription:
close the channel through the `sync.Once` and drop it from the registry. -/
def unsubscribeSub (s : Subscription) : Subscription :=
  { onceClose s with registered := false }

/-- Apply `f` to the element at position `i` (identity out of range). -/
def modifyAt (l : List α) (i : Nat) (f : α → α) : List α :=
  match l, i with
  | [], _ => []
  | x :: xs, 0 => f x :: xs
  | x :: xs, n + 1 => x :: modifyAt xs n f

/-- `(*inmem.EventService).Unsubscribe`/`(*inmem.Subscription).Close` for the
subscription at position `i` of the registry. -/
def Unsubscribe (svc : EventService) (i : Nat) : EventService :=
  ⟨modifyAt svc.subs i unsubscribeSub⟩

/-- `(*inmem.EventService).PublishEvent`: deliver the event to every live
subscription of `userID`; a subscription whose buffer is full is evicted
instead (`select` with `default`). Subscriptions of other users, and
unregistered ones, are untouched. -/
def PublishEvent (svc : EventService) (userID : Int) (event : Event) : EventService :=
  if (svc.subs.filter (fun s => s.registered && s.userID == userID)).isEmpty then svc
  else ⟨svc.subs.map (fun s =>
    if s.registered && s.userID == userID then
      if s.queue.length < EventBufferSize then { s with queue := s.queue ++ [event] }
      else unsubscribeSub s
    else s)⟩

/-- `(*inmem.EventService).Subscribe`: requires a logged in user; registers a
fresh subscription and returns its registry position. -/
def Subscribe (ctx : Ctx) (svc : EventService) : Except Error (EventService × Nat) := do
  let userID := userIDFromContext ctx
  if userID = 0 then
    throw ⟨.EUNAUTHORIZED, "Must be logged in to subscribe to events."⟩
  return (⟨svc.subs ++ [newSubscription userID]⟩, svc.subs.length)

end Inmem

/-! ## Well-formedness predicates and statement vocabulary -/

/-- Row ids of the `dials` table are unique (SQLite primary key). -/
abbrev UniqueDialIDs (db : DB) : Prop := (db.dials.map (fun d => d.id)).Nodup

/-- Row ids of the `dial_memberships` table are unique (SQLite primary key). -/
abbrev UniqueMembershipIDs (db : DB) : Prop := (db.dialMemberships.map (fun m => m.id)).Nodup

/-- Row ids of the `users` table are unique (SQLite primary key). -/
abbrev UniqueUserIDs (db : DB) : Prop := (db.users.map (fun u => u.id)).Nodup

/-- The `dial_values` primary key `(dial_id, "timestamp")`: at most one history
row per dial and minute. -/
abbrev UniqueValueKeys (rows : List DialValueRow) : Prop :=
  (rows.map (fun r => (r.dialID, r.timestamp))).Nodup

/-- The values of all memberships of one dial. -/
abbrev dialMembershipValues (db : DB) (id : Int) : List Int :=
  (db.dialMemberships.filter (fun m => m.dialID == id)).map (fun m => m.value)

/-- The aggregate invariant for one dial: its stored value is the rounded
average of its membership values. -/
abbrev dialAggregateInvariant (db : DB) (id : Int) : Prop :=
  ∀ d ∈ db.dials, d.id = id → d.value = roundAvg (dialMembershipValues db id)

/-! ## Concrete example states for witnesses and counterexamples -/

/-- Example user "jane" (dial owner in the example state). -/
def exUser1 : User := ⟨1, "jane", "", "", 0, 0⟩

/-- Example user "jim" (plain member). -/
def exUser2 : User := ⟨2, "jim", "", "", 0, 0⟩

/-- Example user "bob" (member who owns nothing). -/
def exUser3 : User := ⟨3, "bob", "", "", 0, 0⟩

/-- Example user "eve" (no membership anywhere). -/
def exUser4 : User := ⟨4, "eve", "", "", 0, 0⟩

/-- Example dial owned by jane; `value = 17 = round(avg(0, 50, 0))`. -/
def exDial : Dial := ⟨1, 1, "DIAL", "code1", 17, 0, 61⟩

/-- Jane's owner membership. -/
def exMem1 : DialMembership := ⟨1, 1, 1, 0, 0, 0⟩

/-- Jim's membership with value 50. -/
def exMem2 : DialMembership := ⟨2, 1, 2, 50, 61, 61⟩

/-- Bob's membership with value 0. -/
def exMem3 : DialMembership := ⟨3, 1, 3, 0, 61, 61⟩

/-- A reachable example state: one dial, three members, two history buckets. -/
def exDB : DB :=
  ⟨[exUser1, exUser2, exUser3, exUser4], [exDial], [exMem1, exMem2, exMem3],
    [⟨1, 0, 0⟩, ⟨1, 60, 17⟩], [], 2, 4⟩

/-- An example state holding only user jane, with empty tables. -/
def exDB0 : DB := ⟨[exUser1], [], [], [], [], 1, 1⟩

/-- A dial input whose `value` field is non-zero, as a caller may submit. -/
def exDialNew : Dial := ⟨0, 0, "mydial", "", 37, 0, 0⟩

/-- A state whose history holds the value `-1` — reachable because
`createDial` records the caller's unvalidated `dial.Value` in the history
table — which collides with the report code's `-1` empty-slot sentinel. -/
def exDBNeg : DB :=
  ⟨[exUser1], [⟨1, 1, "D", "c", 0, 0, 0⟩], [⟨1, 1, 1, 0, 0, 0⟩], [⟨1, 0, -1⟩], [], 2, 2⟩

/-! ## Helper lemmas: the ORDER BY model -/

theorem mem_insertLe {α : Type} (le : α → α → Bool) (x : α) (l : List α) (a : α) :
    a ∈ insertLe le x l ↔ a = x ∨ a ∈ l := by
  induction l with
  | nil => simp [insertLe]
  | cons y ys ih =>
    by_cases h : le x y = true
    · simp [insertLe, h]
    · simp only [insertLe, if_neg h, List.mem_cons, ih]
      tauto

theorem mem_orderBy {α : Type} (le : α → α → Bool) (l : List α) (a : α) :
    a ∈ orderBy le l ↔ a ∈ l := by
  induction l with
  | nil => simp [orderBy]
  | cons x xs ih => simp [orderBy, mem_insertLe, ih]

theorem orderBy_nil {α : Type} (le : α → α → Bool) : orderBy le [] = [] := rfl

theorem orderBy_singleton {α : Type} (le : α → α → Bool) (a : α) :
    orderBy le [a] = [a] := rfl

theorem length_insertLe {α : Type} (le : α → α → Bool) (x : α) (l : List α) :
    (insertLe le x l).length = l.length + 1 := by
  induction l with
  | nil => rfl
  | cons y ys ih =>
    by_cases h : le x y = true
    · simp [insertLe, h]
    · simp [insertLe, h, ih]

theorem length_orderBy {α : Type} (le : α → α → Bool) (l : List α) :
    (orderBy le l).length = l.length := by
  induction l with
  | nil => rfl
  | cons x xs ih => simp [orderBy, length_insertLe, ih]

theorem pairwise_insertLe {α : Type} {le : α → α → Bool}
    (htr : ∀ a b c, le a b = true → le b c = true → le a c = true)
    (htot : ∀ a b, (le a b || le b a) = true) (x : α) {l : List α}
    (hl : l.Pairwise (fun a b => le a b = true)) :
    (insertLe le x l).Pairwise (fun a b => le a b = true) := by
  induction l with
  | nil => simp [insertLe]
  | cons y ys ih =>
    rcases List.pairwise_cons.mp hl with ⟨hy, hys⟩
    by_cases h : le x y = true
    · simp only [insertLe, if_pos h]
      refine List.pairwise_cons.mpr ⟨?_, hl⟩
      intro b hb
      rcases List.mem_cons.mp hb with rfl | hb'
      · exact h
      · exact htr x y b h (hy b hb')
    · simp only [insertLe, if_neg h]
      refine List.pairwise_cons.mpr ⟨?_, ih hys⟩
      intro b hb
      rcases (mem_insertLe le x ys b).mp hb with heq | hb'
      · have hxy := htot x y
        rw [heq]
        simpa [h] using hxy
      · exact hy b hb'

theorem pairwise_orderBy {α : Type} {le : α → α → Bool}
    (htr : ∀ a b c, le a b = true → le b c = true → le a c = true)
    (htot : ∀ a b, (le a b || le b a) = true) (l : List α) :
    (orderBy le l).Pairwise (fun a b => le a b = true) := by
  induction l with
  | nil => simp [orderBy]
  | cons x xs ih => exact pairwise_insertLe htr htot x ih

/-! ## Helper lemmas: singling out rows by a unique key -/

theorem mem_eq_of_nodup_key {α κ : Type} (key : α → κ) {l : List α}
    (hp : (l.map key).Nodup) {a b : α} (ha : a ∈ l) (hb : b ∈ l)
    (h : key a = key b) : a = b := by
  induction l with
  | nil => cases ha
  | cons x xs ih =>
    simp only [List.map_cons, List.nodup_cons] at hp
    rcases List.mem_cons.mp ha with rfl | ha' <;> rcases List.mem_cons.mp hb with rfl | hb'
    · rfl
    · exact absurd (h ▸ List.mem_map_of_mem key hb') hp.1
    · exact absurd (h.symm ▸ List.mem_map_of_mem key ha') hp.1
    · exact ih hp.2 ha' hb'

theorem filterMap_filter_eq_singleton {α β κ : Type} {f : α → Option β} {p : β → Bool}
    (key : α → κ) {l : List α} (hnd : (l.map key).Nodup) {a : α} {b : β}
    (ha : a ∈ l) (hfa : f a = some b) (hpb : p b = true)
    (hsel : ∀ x ∈ l, ∀ y, f x = some y → p y = true → key x = key a) :
    (l.filterMap f).filter p = [b] := by
  induction l with
  | nil => cases ha
  | cons x xs ih =>
    simp only [List.map_cons, List.nodup_cons] at hnd
    rcases List.mem_cons.mp ha with rfl | ha'
    · rw [List.filterMap_cons, hfa]
      have hrest : (xs.filterMap f).filter p = [] := by
        apply List.filter_eq_nil_iff.mpr
        intro z hz hpz
        obtain ⟨y, hy, hfy⟩ := List.mem_filterMap.mp hz
        have hk := hsel y (List.mem_cons_of_mem _ hy) z hfy hpz
        exact hnd.1 (hk ▸ List.mem_map_of_mem key hy)
      simp [List.filter_cons, hpb, hrest]
    · rw [List.filterMap_cons]
      have ihx := ih hnd.2 ha'
        (fun x' hx' y hy hpy => hsel x' (List.mem_cons_of_mem _ hx') y hy hpy)
      cases hfx : f x with
      | none => exact ihx
      | some y =>
        cases hpy : p y with
        | false => simpa [List.filter_cons, hpy] using ihx
        | true =>
          have hk := hsel x (List.mem_cons_self x xs) y hfx hpy
          exact absurd (hk.symm ▸ List.mem_map_of_mem key ha') hnd.1

theorem filter_eq_singleton_of_key {α κ : Type} {p : α → Bool} (key : α → κ) {l : List α}
    (hnd : (l.map key).Nodup) {a : α} (ha : a ∈ l) (hpa : p a = true)
    (hsel : ∀ x ∈ l, p x = true → key x = key a) : l.filter p = [a] := by
  have h := filterMap_filter_eq_singleton (f := some) (p := p) key hnd ha rfl hpa
    (fun x hx y hy hpy => by cases hy; exact hsel x hx hpy)
  rwa [List.filterMap_some] at h

/-! ## Helper lemmas: which DB components each write touches -/

theorem insertDialValue_users (db : DB) (id v : Int) (ts : Time) :
    (insertDialValue db id v ts).users = db.users := by
  simp only [insertDialValue]; split <;> rfl

theorem insertDialValue_dials (db : DB) (id v : Int) (ts : Time) :
    (insertDialValue db id v ts).dials = db.dials := by
  simp only [insertDialValue]; split <;> rfl

theorem insertDialValue_memberships (db : DB) (id v : Int) (ts : Time) :
    (insertDialValue db id v ts).dialMemberships = db.dialMemberships := by
  simp only [insertDialValue]; split <;> rfl

theorem publishDialEvent_users (db : DB) (id : Int) (e : Event) :
    (publishDialEvent db id e).users = db.users := rfl

theorem publishDialEvent_dials (db : DB) (id : Int) (e : Event) :
    (publishDialEvent db id e).dials = db.dials := rfl

theorem publishDialEvent_memberships (db : DB) (id : Int) (e : Event) :
    (publishDialEvent db id e).dialMemberships = db.dialMemberships := rfl

theorem publishDialEvent_dialValues (db : DB) (id : Int) (e : Event) :
    (publishDialEvent db id e).dialValues = db.dialValues := rfl

theorem refreshDialValue_users (db : DB) (now : Time) (id : Int) :
    (refreshDialValue db now id).users = db.users := by
  simp only [refreshDialValue]
  split
  · rfl
  · split
    · rfl
    · simp [publishDialEvent_users, insertDialValue_users]

theorem refreshDialValue_memberships (db : DB) (now : Time) (id : Int) :
    (refreshDialValue db now id).dialMemberships = db.dialMemberships := by
  simp only [refreshDialValue]
  split
  · rfl
  · split
    · rfl
    · simp [publishDialEvent_memberships, insertDialValue_memberships]

/-! ## Helper lemmas: row lookups -/

theorem formatLimitOffset_zero {α : Type} (l : List α) : formatLimitOffset 0 0 l = l := rfl

theorem findDialMemberships_id (ctx : Ctx) (db : DB) {m : DialMembership}
    (hm : m ∈ db.dialMemberships) (hnd : UniqueMembershipIDs db)
    (hd : ∃ d ∈ db.dials, d.id = m.dialID)
    (hu : ∃ u ∈ db.users, u.id = m.userID)
    (hvis : ∃ m1 ∈ db.dialMemberships, m1.dialID = m.dialID ∧
      m1.userID = userIDFromContext ctx) :
    findDialMemberships ctx db { id := some m.id } = ([m], 1) := by
  have hfds : (db.dials.find? (fun d => d.id == m.dialID)).isSome := by
    obtain ⟨d, hdm, hdi⟩ := hd
    exact List.find?_isSome.mpr ⟨d, hdm, by simp [hdi]⟩
  obtain ⟨d0, hfd⟩ := Option.isSome_iff_exists.mp hfds
  have hfus : (db.users.find? (fun u => u.id == m.userID)).isSome := by
    obtain ⟨u, hum, hui⟩ := hu
    exact List.find?_isSome.mpr ⟨u, hum, by simp [hui]⟩
  obtain ⟨u0, hfu⟩ := Option.isSome_iff_exists.mp hfus
  obtain ⟨m1, hm1, hm1d, hm1u⟩ := hvis
  have hnd' : (db.dialMemberships.map (fun m' => m'.id)).Nodup := hnd
  have hany : db.dialMemberships.any (fun mm =>
      mm.dialID == m.dialID && mm.userID == userIDFromContext ctx) = true :=
    List.any_eq_true.mpr ⟨m1, hm1, by simp [hm1d, hm1u]⟩
  have hsingle := filterMap_filter_eq_singleton
    (f := fun m' =>
      match db.dials.find? (fun d => d.id == m'.dialID),
            db.users.find? (fun u => u.id == m'.userID) with
      | some d, some u => some (m', d.userID, u.name)
      | _, _ => none)
    (p := fun x =>
      ((some m.id).all (fun v => v == x.1.id)) &&
      ((none : Option Int).all (fun v => v == x.1.dialID)) &&
      ((none : Option Int).all (fun v => v == x.1.userID)) &&
      (x.2.1 == userIDFromContext ctx || db.dialMemberships.any (fun mm =>
        mm.dialID == x.1.dialID && mm.userID == userIDFromContext ctx)))
    (fun m' => m'.id) hnd' (a := m) hm
    (b := (m, d0.userID, u0.name)) (by dsimp only; rw [hfd, hfu])
    (by simp [hany])
    (by
      intro x hx y hy hpy
      dsimp only at hy
      cases hdx : db.dials.find? (fun d => d.id == x.dialID) with
      | none => rw [hdx] at hy; cases hy
      | some dd =>
        cases hux : db.users.find? (fun u => u.id == x.userID) with
        | none => rw [hdx, hux] at hy; cases hy
        | some uu =>
          rw [hdx, hux] at hy
          cases hy
          simp only [Option.all_some, Option.all_none, Bool.and_eq_true, beq_iff_eq] at hpy
          exact hpy.1.1.1.symm)
  simp only [findDialMemberships, DialMembershipSortByUpdatedAtDesc]
  rw [hsingle]
  simp [formatLimitOffset, orderBy_nil, orderBy_singleton]

theorem findDialMembershipByID_ok (ctx : Ctx) (db : DB) {m : DialMembership}
    (hm : m ∈ db.dialMemberships) (hnd : UniqueMembershipIDs db)
    (hd : ∃ d ∈ db.dials, d.id = m.dialID)
    (hu : ∃ u ∈ db.users, u.id = m.userID)
    (hvis : ∃ m1 ∈ db.dialMemberships, m1.dialID = m.dialID ∧
      m1.userID = userIDFromContext ctx) :
    findDialMembershipByID ctx db m.id = .ok m := by
  rw [findDialMembershipByID, findDialMemberships_id ctx db hm hnd hd hu hvis]

theorem findDials_id (ctx : Ctx) (db : DB) {d : Dial}
    (hd : d ∈ db.dials) (hnd : UniqueDialIDs db)
    (hvis : ∃ m1 ∈ db.dialMemberships, m1.dialID = d.id ∧
      m1.userID = userIDFromContext ctx) :
    findDials ctx db { id := some d.id } = ([d], 1) := by
  obtain ⟨m1, hm1, hm1d, hm1u⟩ := hvis
  have hnd' : (db.dials.map (fun d' => d'.id)).Nodup := hnd
  have hany : db.dialMemberships.any (fun m =>
      m.dialID == d.id && m.userID == userIDFromContext ctx) = true :=
    List.any_eq_true.mpr ⟨m1, hm1, by simp [hm1d, hm1u]⟩
  have hsingle := filter_eq_singleton_of_key
    (p := fun d' =>
      ((some d.id).all (fun v => v == d'.id)) &&
      (db.dialMemberships.any (fun m =>
        m.dialID == d'.id && m.userID == userIDFromContext ctx)))
    (fun d' => d'.id) hnd' (a := d) hd
    (by simp [hany])
    (by
      intro x hx hpx
      simp only [Option.all_some, Bool.and_eq_true, beq_iff_eq] at hpx
      exact hpx.1.symm)
  simp only [findDials]
  rw [hsingle]
  simp [formatLimitOffset, orderBy_nil, orderBy_singleton]

theorem findDialByID_ok (ctx : Ctx) (db : DB) {d : Dial}
    (hd : d ∈ db.dials) (hnd : UniqueDialIDs db)
    (hvis : ∃ m1 ∈ db.dialMemberships, m1.dialID = d.id ∧
      m1.userID = userIDFromContext ctx) :
    findDialByID ctx db d.id = .ok d := by
  rw [findDialByID, findDials_id ctx db hd hnd hvis]

theorem findUsers_id_mem (db : DB) {u : User} (hu : u ∈ db.users) :
    (findUsers db { id := some u.id }).1 ≠ [] := by
  simp only [findUsers, formatLimitOffset_zero]
  intro hemp
  have : u ∈ orderBy (fun a b => decide (a.id ≤ b.id)) (db.users.filter (fun u' =>
      ((some u.id).all (fun v => v == u'.id)) &&
      ((none : Option String).all (fun v => v == u'.email)) &&
      ((none : Option String).all (fun v => v == u'.apiKey)))) := by
    rw [mem_orderBy, List.mem_filter]
    exact ⟨hu, by simp⟩
  rw [hemp] at this
  cases this

theorem findUserByID_ok (db : DB) {u : User} (hu : u ∈ db.users) :
    ∃ u', findUserByID db u.id = .ok u' := by
  rw [findUserByID]
  cases h : (findUsers db { id := some u.id }).1 with
  | nil => exact absurd h (findUsers_id_mem db hu)
  | cons u' rest => exact ⟨u', rfl⟩

theorem findDials_id_nomember (ctx : Ctx) (db : DB) (id : Int)
    (h : ∀ m1 ∈ db.dialMemberships,
      ¬(m1.dialID = id ∧ m1.userID = userIDFromContext ctx)) :
    findDials ctx db { id := some id } = ([], 0) := by
  have hnil : db.dials.filter (fun d' =>
      ((some id).all (fun v => v == d'.id)) &&
      (db.dialMemberships.any (fun m =>
        m.dialID == d'.id && m.userID == userIDFromContext ctx))) = [] := by
    apply List.filter_eq_nil_iff.mpr
    intro d' hd' hp
    simp only [Option.all_some, Bool.and_eq_true, beq_iff_eq, List.any_eq_true] at hp
    obtain ⟨hid, m1, hm1, hc1, hc2⟩ := hp
    exact h m1 hm1 ⟨hc1.trans hid.symm, hc2⟩
  simp only [findDials]
  rw [hnil]
  simp [formatLimitOffset, orderBy_nil, orderBy_singleton]

theorem findDials_id_nodial (ctx : Ctx) (db : DB) (id : Int)
    (h : ∀ d ∈ db.dials, d.id ≠ id) :
    findDials ctx db { id := some id } = ([], 0) := by
  have hnil : db.dials.filter (fun d' =>
      ((some id).all (fun v => v == d'.id)) &&
      (db.dialMemberships.any (fun m =>
        m.dialID == d'.id && m.userID == userIDFromContext ctx))) = [] := by
    apply List.filter_eq_nil_iff.mpr
    intro d' hd' hp
    simp only [Option.all_some, Bool.and_eq_true, beq_iff_eq, List.any_eq_true] at hp
    exact h d' hd' hp.1.symm
  simp only [findDials]
  rw [hnil]
  simp [formatLimitOffset, orderBy_nil, orderBy_singleton]

theorem mem_findDials_noInvite (ctx : Ctx) (db : DB) (d : Dial) :
    d ∈ (findDials ctx db {}).1 ↔
      d ∈ db.dials ∧ ∃ m1 ∈ db.dialMemberships,
        m1.dialID = d.id ∧ m1.userID = userIDFromContext ctx := by
  simp [findDials, formatLimitOffset, mem_orderBy, List.mem_filter, List.any_eq_true]

theorem mem_findDials_inviteCode (ctx : Ctx) (db : DB) (code : String) (d : Dial) :
    d ∈ (findDials ctx db { inviteCode := some code }).1 ↔
      d ∈ db.dials ∧ d.inviteCode = code := by
  simp [findDials, formatLimitOffset, mem_orderBy, List.mem_filter]

theorem findDialMemberships_pair_nil (ctx : Ctx) (db : DB) (dialID uid : Int)
    (h : ∀ m' ∈ db.dialMemberships, ¬(m'.dialID = dialID ∧ m'.userID = uid)) :
    findDialMemberships ctx db { dialID := some dialID, userID := some uid } = ([], 0) := by
  have hnil : (db.dialMemberships.filterMap (fun m' =>
      match db.dials.find? (fun dd => dd.id == m'.dialID),
            db.users.find? (fun u => u.id == m'.userID) with
      | some dd, some u => some (m', dd.userID, u.name)
      | _, _ => none)).filter (fun x =>
      ((none : Option Int).all (fun v => v == x.1.id)) &&
      ((some dialID).all (fun v => v == x.1.dialID)) &&
      ((some uid).all (fun v => v == x.1.userID)) &&
      (x.2.1 == userIDFromContext ctx || db.dialMemberships.any (fun mm =>
        mm.dialID == x.1.dialID && mm.userID == userIDFromContext ctx))) = [] := by
    apply List.filter_eq_nil_iff.mpr
    intro x hx hp
    obtain ⟨m', hm', hfm'⟩ := List.mem_filterMap.mp hx
    have hx1 : x.1 = m' := by
      cases hdx : db.dials.find? (fun dd => dd.id == m'.dialID) with
      | none => rw [hdx] at hfm'; cases hfm'
      | some dd =>
        cases hux : db.users.find? (fun u => u.id == m'.userID) with
        | none => rw [hdx, hux] at hfm'; cases hfm'
        | some uu => rw [hdx, hux] at hfm'; cases hfm'; rfl
    simp only [Option.all_some, Option.all_none, Bool.and_eq_true, beq_iff_eq] at hp
    exact h m' hm' ⟨(hx1 ▸ hp.1.1.2).symm, (hx1 ▸ hp.1.2).symm⟩
  simp only [findDialMemberships, DialMembershipSortByUpdatedAtDesc]
  rw [hnil]
  simp [formatLimitOffset, orderBy_nil, orderBy_singleton]

theorem mapM_attach_ok (db : DB) {dials : List Dial}
    (h : ∀ d ∈ dials, ∃ u ∈ db.users, u.id = d.userID) :
    ∃ us, dials.mapM (fun d => attachDialAssociations db d) =
      (Except.ok us : Except Error (List User)) := by
  induction dials with
  | nil => exact ⟨[], rfl⟩
  | cons d ds ih =>
    obtain ⟨u, hu, hui⟩ := h d (List.mem_cons_self d ds)
    have hu' : ∃ u', findUserByID db d.userID = .ok u' := hui ▸ findUserByID_ok db hu
    obtain ⟨u', hfu⟩ := hu'
    obtain ⟨us, hus⟩ := ih (fun x hx => h x (List.mem_cons_of_mem _ hx))
    refine ⟨u' :: us, ?_⟩
    rw [List.mapM_cons, show attachDialAssociations db d = Except.ok u' from hfu, hus]
    rfl

/-! ## Helper lemmas: the history upsert -/

theorem insertDialValue_map_keys (db : DB) (id v : Int) (ts : Time) :
    ((db.dialValues.map (fun r =>
      if r.dialID == id && r.timestamp == timeTruncate ts oneMinute then
        { r with value := v } else r)).map (fun r => (r.dialID, r.timestamp))) =
    db.dialValues.map (fun r => (r.dialID, r.timestamp)) := by
  rw [List.map_map]
  apply List.map_congr_left
  intro r hr
  by_cases hc : (r.dialID == id && r.timestamp == timeTruncate ts oneMinute) = true
  · simp [Function.comp, hc]
  · simp [Function.comp, hc]

theorem insertDialValue_unique (db : DB) (id v : Int) (ts : Time)
    (h : UniqueValueKeys db.dialValues) :
    UniqueValueKeys (insertDialValue db id v ts).dialValues := by
  have h' : (db.dialValues.map (fun r => (r.dialID, r.timestamp))).Nodup := h
  simp only [insertDialValue, UniqueValueKeys]
  split
  case isTrue hc =>
    rw [insertDialValue_map_keys db id v ts]
    exact h'
  case isFalse hc =>
    rw [List.map_append]
    refine List.Nodup.append h' (by simp) ?_
    intro x hx hx'
    simp only [List.map_cons, List.map_nil, List.mem_singleton] at hx'
    obtain ⟨r, hr, hkr⟩ := List.mem_map.mp hx
    have hkey : r.dialID = id ∧ r.timestamp = timeTruncate ts oneMinute := by
      have h2 := hkr.trans hx'
      exact ⟨congrArg Prod.fst h2, congrArg Prod.snd h2⟩
    exact hc (List.any_eq_true.mpr ⟨r, hr, by simp [hkey.1, hkey.2]⟩)

theorem insertDialValue_filter_key (db : DB) (id v : Int) (ts : Time)
    (h : UniqueValueKeys db.dialValues) :
    (insertDialValue db id v ts).dialValues.filter
      (fun r => r.dialID == id && r.timestamp == timeTruncate ts oneMinute) =
    [{ dialID := id, timestamp := timeTruncate ts oneMinute, value := v }] := by
  have h' : (db.dialValues.map (fun r => (r.dialID, r.timestamp))).Nodup := h
  simp only [insertDialValue]
  split
  case isTrue hc =>
    obtain ⟨r0, hr0, hp0⟩ := List.any_eq_true.mp hc
    simp only [Bool.and_eq_true, beq_iff_eq] at hp0
    have hnd2 : ((db.dialValues.map (fun r =>
        if r.dialID == id && r.timestamp == timeTruncate ts oneMinute then
          { r with value := v } else r)).map (fun r => (r.dialID, r.timestamp))).Nodup := by
      rw [insertDialValue_map_keys db id v ts]; exact h'
    refine filter_eq_singleton_of_key (fun r : DialValueRow => (r.dialID, r.timestamp)) hnd2
      (a := ({ dialID := id, timestamp := timeTruncate ts oneMinute, value := v } : DialValueRow))
      ?_ (by simp) ?_
    · refine List.mem_map.mpr ⟨r0, hr0, ?_⟩
      rw [if_pos (by simp [hp0.1, hp0.2])]
      cases r0
      simp_all
    · intro x hx hpx
      simp only [Bool.and_eq_true, beq_iff_eq] at hpx
      simp [hpx.1, hpx.2]
  case isFalse hc =>
    rw [List.filter_append]
    have h1 : db.dialValues.filter
        (fun r => r.dialID == id && r.timestamp == timeTruncate ts oneMinute) = [] :=
      List.filter_eq_nil_iff.mpr (fun r hr hp => hc (List.any_eq_true.mpr ⟨r, hr, hp⟩))
    rw [h1]
    simp

/-- The lookup made by `SetDialMembershipValue` is empty whenever the context
user holds no membership in the dial. -/
theorem setDialMembershipValue_nomember (ctx : Ctx) (db : DB) (now : Time)
    (dialID value : Int)
    (h : ∀ m' ∈ db.dialMemberships,
      ¬(m'.dialID = dialID ∧ m'.userID = userIDFromContext ctx)) :
    SetDialMembershipValue ctx db now dialID value =
      .error ⟨.ENOTFOUND, "User is not a member of this dial."⟩ := by
  simp only [SetDialMembershipValue,
    findDialMemberships_pair_nil ctx db dialID (userIDFromContext ctx) h]
  rfl

/-! ## Helper lemmas: monadic reduction and association attachment -/

theorem except_bind_ok {α β : Type} (a : α) (f : α → Except Error β) :
    (Except.ok a : Except Error α) >>= f = f a := rfl

theorem except_bind_error {α β : Type} (e : Error) (f : α → Except Error β) :
    (Except.error e : Except Error α) >>= f = .error e := rfl

theorem except_pure_bind {α β : Type} (a : α) (f : α → Except Error β) :
    (pure a : Except Error α) >>= f = f a := rfl

theorem except_throw_bind {α β : Type} (e : Error) (f : α → Except Error β) :
    ((throw e : Except Error α) >>= f) = .error e := rfl

theorem mem_findDials_id (ctx : Ctx) (db : DB) (id : Int) (d : Dial) :
    d ∈ (findDials ctx db { id := some id }).1 ↔
      d ∈ db.dials ∧ id = d.id ∧ ∃ m1 ∈ db.dialMemberships,
        m1.dialID = d.id ∧ m1.userID = userIDFromContext ctx := by
  simp [findDials, formatLimitOffset, mem_orderBy, List.mem_filter, List.any_eq_true]

theorem findDialByID_exists (ctx : Ctx) (db : DB) (id : Int)
    (hd : ∃ d ∈ db.dials, d.id = id)
    (hvis : ∃ m1 ∈ db.dialMemberships, m1.dialID = id ∧
      m1.userID = userIDFromContext ctx) :
    ∃ d', findDialByID ctx db id = .ok d' := by
  rw [findDialByID]
  cases h : (findDials ctx db { id := some id }).1 with
  | nil =>
    obtain ⟨d, hdm, hdi⟩ := hd
    obtain ⟨m1, hm1, hm1d, hm1u⟩ := hvis
    have hmem : d ∈ (findDials ctx db { id := some id }).1 :=
      (mem_findDials_id ctx db id d).mpr
        ⟨hdm, hdi.symm, m1, hm1, hm1d.trans hdi.symm, hm1u⟩
    rw [h] at hmem
    cases hmem
  | cons d' rest => exact ⟨d', rfl⟩

theorem attachMembership_exists (ctx : Ctx) (db : DB) (m : DialMembership)
    (hd : ∃ d ∈ db.dials, d.id = m.dialID)
    (hvis : ∃ m1 ∈ db.dialMemberships, m1.dialID = m.dialID ∧
      m1.userID = userIDFromContext ctx)
    (hu : ∃ u' ∈ db.users, u'.id = m.userID) :
    ∃ p, attachDialMembershipAssociations ctx db m = .ok p := by
  obtain ⟨d', hdf⟩ := findDialByID_exists ctx db m.dialID hd hvis
  obtain ⟨u0, hu0m, hu0i⟩ := hu
  obtain ⟨u', huf⟩ : ∃ u', findUserByID db m.userID = .ok u' :=
    hu0i ▸ findUserByID_ok db hu0m
  refine ⟨(d', u'), ?_⟩
  simp only [attachDialMembershipAssociations, hdf, huf, except_bind_ok]
  rfl

theorem attachMembership_eq (ctx : Ctx) (db : DB) (m : DialMembership) {d : Dial}
    (hdm : d ∈ db.dials) (hndd : UniqueDialIDs db) (hdi : d.id = m.dialID)
    (hvis : ∃ m1 ∈ db.dialMemberships, m1.dialID = m.dialID ∧
      m1.userID = userIDFromContext ctx)
    {u' : User} (huf : findUserByID db m.userID = .ok u') :
    attachDialMembershipAssociations ctx db m = .ok (d, u') := by
  have hdfind : findDialByID ctx db m.dialID = .ok d := by
    have h := findDialByID_ok ctx db hdm hndd (by rw [hdi]; exact hvis)
    rwa [hdi] at h
  simp only [attachDialMembershipAssociations, hdfind, huf, except_bind_ok]
  rfl

/-! ## Helper lemmas: inverting the membership-mutating operations -/

theorem mem_of_formatLimitOffset {α : Type} {lim off : Nat} {l : List α} {x : α}
    (h : x ∈ formatLimitOffset lim off l) : x ∈ l := by
  simp only [formatLimitOffset] at h
  split at h
  · exact List.mem_of_mem_drop (List.mem_of_mem_take h)
  · split at h
    · exact List.mem_of_mem_drop h
    · exact h

theorem findDialMemberships_result_mem (ctx : Ctx) (db : DB)
    (filter : DialMembershipFilter) {m0 : DialMembership}
    (h : m0 ∈ (findDialMemberships ctx db filter).1) :
    m0 ∈ db.dialMemberships ∧
    (∀ v, filter.id = some v → m0.id = v) ∧
    (∀ v, filter.dialID = some v → m0.dialID = v) ∧
    (∀ v, filter.userID = some v → m0.userID = v) ∧
    (∃ d ∈ db.dials, d.id = m0.dialID) ∧ (∃ u ∈ db.users, u.id = m0.userID) := by
  simp only [findDialMemberships] at h
  have h2 := mem_of_formatLimitOffset h
  rw [List.mem_map] at h2
  obtain ⟨x, hx, hx1⟩ := h2
  split at hx <;> rw [mem_orderBy] at hx <;>
  · rw [List.mem_filter] at hx
    obtain ⟨hxj, hp⟩ := hx
    rw [List.mem_filterMap] at hxj
    obtain ⟨m1, hm1, hfm1⟩ := hxj
    cases hdx : db.dials.find? (fun dd => dd.id == m1.dialID) with
    | none => rw [hdx] at hfm1; cases hfm1
    | some d0 =>
      cases hux : db.users.find? (fun uu => uu.id == m1.userID) with
      | none => rw [hdx, hux] at hfm1; cases hfm1
      | some u0 =>
        have hd0id : d0.id = m1.dialID := by
          have hb := List.find?_some hdx
          simpa using hb
        have hu0id : u0.id = m1.userID := by
          have hb := List.find?_some hux
          simpa using hb
        have hd0mem := List.mem_of_find?_eq_some hdx
        have hu0mem := List.mem_of_find?_eq_some hux
        rw [hdx, hux] at hfm1
        cases hfm1
        cases hx1
        simp only [Bool.and_eq_true] at hp
        obtain ⟨⟨⟨hA, hB⟩, hC⟩, _⟩ := hp
        refine ⟨hm1, ?_, ?_, ?_, ⟨d0, hd0mem, hd0id⟩, ⟨u0, hu0mem, hu0id⟩⟩
        · intro v hv
          rw [hv, Option.all_some] at hA
          exact (eq_of_beq hA).symm
        · intro v hv
          rw [hv, Option.all_some] at hB
          exact (eq_of_beq hB).symm
        · intro v hv
          rw [hv, Option.all_some] at hC
          exact (eq_of_beq hC).symm

theorem findDialMembershipByID_ok_inv {ctx : Ctx} {db : DB} {id : Int}
    {m0 : DialMembership} (h : findDialMembershipByID ctx db id = .ok m0) :
    m0 ∈ db.dialMemberships ∧ m0.id = id ∧
    (∃ d ∈ db.dials, d.id = m0.dialID) ∧ (∃ u ∈ db.users, u.id = m0.userID) := by
  rw [findDialMembershipByID] at h
  cases hres : (findDialMemberships ctx db { id := some id }).1 with
  | nil => rw [hres] at h; cases h
  | cons mh rest =>
    rw [hres] at h
    cases h
    have hmem : m0 ∈ (findDialMemberships ctx db { id := some id }).1 := by
      rw [hres]; exact List.mem_cons_self _ _
    obtain ⟨h1, h2, _, _, h5, h6⟩ := findDialMemberships_result_mem ctx db _ hmem
    exact ⟨h1, h2 id rfl, h5, h6⟩

theorem findDialByID_ok_inv {ctx : Ctx} {db : DB} {id : Int} {d' : Dial}
    (h : findDialByID ctx db id = .ok d') : d' ∈ db.dials ∧ d'.id = id := by
  rw [findDialByID] at h
  cases hres : (findDials ctx db { id := some id }).1 with
  | nil => rw [hres] at h; cases h
  | cons dh rest =>
    rw [hres] at h
    cases h
    have hmem : d' ∈ (findDials ctx db { id := some id }).1 := by
      rw [hres]; exact List.mem_cons_self _ _
    have hinv := (mem_findDials_id ctx db id d').mp hmem
    exact ⟨hinv.1, hinv.2.1.symm⟩

theorem checkDialExists_ok_inv {db : DB} {id : Int} {u : Unit}
    (h : checkDialExists db id = .ok u) : ∃ d ∈ db.dials, d.id = id := by
  simp only [checkDialExists] at h
  split at h
  case isTrue hc =>
    obtain ⟨d, hd, hdc⟩ := List.any_eq_true.mp hc
    exact ⟨d, hd, eq_of_beq hdc⟩
  case isFalse hc => cases h

theorem createDialMembership_ok_inv {db : DB} {now : Time} {m m' : DialMembership}
    {db' : DB} (h : createDialMembership db now m = .ok (m', db')) :
    m' = { m with createdAt := now, updatedAt := now, id := db.membershipSeq } ∧
    (∃ d ∈ db.dials, d.id = m.dialID) ∧
    db' = refreshDialValue
      { db with dialMemberships := db.dialMemberships ++ [m'], membershipSeq := db.membershipSeq + 1 }
      now m.dialID := by
  simp only [createDialMembership, bind, Except.bind] at h
  split at h
  · cases h
  · split at h
    · cases h
    · rename_i hchk heq2
      split at h
      · cases h
      · have hinj := Except.ok.inj h
        have hm' : m' = { m with createdAt := now, updatedAt := now, id := db.membershipSeq } :=
          (congrArg Prod.fst hinj).symm
        refine ⟨hm', checkDialExists_ok_inv heq2, ?_⟩
        rw [hm']
        exact (congrArg Prod.snd hinj).symm

theorem updateDialMembership_ok_inv {ctx : Ctx} {db : DB} {now : Time} {id : Int}
    {upd : DialMembershipUpdate} {m' : DialMembership} {db' : DB}
    (h : updateDialMembership ctx db now id upd = .ok (m', db')) :
    (∃ m0 ∈ db.dialMemberships, m0.id = id ∧ m0.dialID = m'.dialID) ∧
    (∃ d ∈ db.dials, d.id = m'.dialID) ∧
    (db' = db ∨
      db' = publishDialEvent
        (refreshDialValue
          { db with dialMemberships := db.dialMemberships.map (fun mm => if mm.id == id then { mm with value := m'.value, updatedAt := now } else mm) }
          now m'.dialID)
        m'.dialID
        { type := EventTypeDialMembershipValueChanged,
          payload := .dialMembershipValueChanged id m'.value }) := by
  cases hv : upd.value with
  | none =>
    simp only [updateDialMembership, hv] at h
    cases hfind : findDialMembershipByID ctx db id with
    | error e => rw [hfind, except_bind_error] at h; cases h
    | ok m0 =>
      rw [hfind] at h
      simp only [except_bind_ok] at h
      obtain ⟨hm0mem, hm0id, hm0d, _⟩ := findDialMembershipByID_ok_inv hfind
      split at h
      · rw [except_throw_bind] at h; cases h
      · simp only [except_pure_bind] at h
        split at h
        · have hinj := Except.ok.inj h
          have hm' : m' = m0 := (congrArg Prod.fst hinj).symm
          have hdb' : db' = db := (congrArg Prod.snd hinj).symm
          refine ⟨⟨m0, hm0mem, hm0id, by rw [hm']⟩, by rw [hm']; exact hm0d, Or.inl hdb'⟩
        · rename_i hne
          simp at hne
  | some v =>
    simp only [updateDialMembership, hv] at h
    cases hfind : findDialMembershipByID ctx db id with
    | error e => rw [hfind, except_bind_error] at h; cases h
    | ok m0 =>
      rw [hfind] at h
      simp only [except_bind_ok] at h
      obtain ⟨hm0mem, hm0id, hm0d, _⟩ := findDialMembershipByID_ok_inv hfind
      split at h
      · rw [except_throw_bind] at h; cases h
      · simp only [except_pure_bind] at h
        split at h
        · have hinj := Except.ok.inj h
          have hm' : m' = { m0 with value := v } := (congrArg Prod.fst hinj).symm
          have hdb' : db' = db := (congrArg Prod.snd hinj).symm
          refine ⟨⟨m0, hm0mem, hm0id, by rw [hm']⟩,
            (by rw [hm']; simpa using hm0d), Or.inl hdb'⟩
        · cases hvd : DialMembership.Validate { m0 with value := v, updatedAt := now } with
          | error e => rw [hvd, except_bind_error] at h; cases h
          | ok uu =>
            cases uu
            rw [hvd] at h
            simp only [except_bind_ok] at h
            have hinj := Except.ok.inj h
            have hm' : m' = { m0 with value := v, updatedAt := now } :=
              (congrArg Prod.fst hinj).symm
            refine ⟨⟨m0, hm0mem, hm0id, by rw [hm']⟩,
              (by rw [hm']; simpa using hm0d), Or.inr ?_⟩
            rw [hm']
            exact (congrArg Prod.snd hinj).symm

theorem deleteDialMembership_ok_inv {ctx : Ctx} {db : DB} {now : Time} {id : Int}
    {db' : DB} (h : deleteDialMembership ctx db now id = .ok db') :
    ∃ m0 ∈ db.dialMemberships, m0.id = id ∧ (∃ d ∈ db.dials, d.id = m0.dialID) ∧
      db' = refreshDialValue
        { db with dialMemberships := db.dialMemberships.filter (fun mm => !(mm.id == id)) }
        now m0.dialID := by
  simp only [deleteDialMembership] at h
  cases hfind : findDialMembershipByID ctx db id with
  | error e => rw [hfind, except_bind_error] at h; cases h
  | ok m0 =>
    rw [hfind] at h
    simp only [except_bind_ok] at h
    obtain ⟨hm0mem, hm0id, hm0d, _⟩ := findDialMembershipByID_ok_inv hfind
    cases hatt : attachDialMembershipAssociations ctx db m0 with
    | error e => rw [hatt, except_bind_error] at h; cases h
    | ok p =>
      obtain ⟨dial, uu⟩ := p
      rw [hatt] at h
      simp only [except_bind_ok] at h
      split at h
      · rw [except_throw_bind] at h; cases h
      · simp only [except_pure_bind] at h
        split at h
        · rw [except_throw_bind] at h; cases h
        · try simp only [except_pure_bind] at h
          exact ⟨m0, hm0mem, hm0id, hm0d, (Except.ok.inj h).symm⟩

theorem CreateDialMembership_ok_inv {ctx : Ctx} {db : DB} {now : Time}
    {m m' : DialMembership} {db' : DB}
    (h : CreateDialMembership ctx db now m = .ok (m', db')) :
    createDialMembership db now { m with userID := userIDFromContext ctx } =
      .ok (m', db') := by
  simp only [CreateDialMembership] at h
  split at h
  · rw [except_throw_bind] at h; cases h
  · simp only [except_pure_bind] at h
    cases hcr : createDialMembership db now { m with userID := userIDFromContext ctx } with
    | error e => rw [hcr, except_bind_error] at h; cases h
    | ok p =>
      obtain ⟨m1, db1⟩ := p
      rw [hcr] at h
      simp only [except_bind_ok] at h
      cases hatt : attachDialMembershipAssociations ctx db1 m1 with
      | error e => rw [hatt, except_bind_error] at h; cases h
      | ok q =>
        rw [hatt] at h
        simp only [except_bind_ok] at h
        have hinj : (m1, db1) = (m', db') := Except.ok.inj h
        obtain ⟨h1, h2⟩ := Prod.mk.inj hinj
        subst h1
        subst h2
        rfl

theorem UpdateDialMembership_ok_inv {ctx : Ctx} {db : DB} {now : Time} {id : Int}
    {upd : DialMembershipUpdate} {m' : DialMembership} {db' : DB}
    (h : UpdateDialMembership ctx db now id upd = .ok (m', db')) :
    updateDialMembership ctx db now id upd = .ok (m', db') := by
  simp only [UpdateDialMembership] at h
  cases hupd : updateDialMembership ctx db now id upd with
  | error e => rw [hupd, except_bind_error] at h; cases h
  | ok p =>
    obtain ⟨m1, db1⟩ := p
    rw [hupd] at h
    simp only [except_bind_ok] at h
    cases hatt : attachDialMembershipAssociations ctx db1 m1 with
    | error e => rw [hatt, except_bind_error] at h; cases h
    | ok q =>
      rw [hatt] at h
      simp only [except_bind_ok] at h
      have hinj : (m1, db1) = (m', db') := Except.ok.inj h
      obtain ⟨h1, h2⟩ := Prod.mk.inj hinj
      subst h1
      subst h2
      rfl

theorem setDialMembershipValue_ok_inv {ctx : Ctx} {db : DB} {now : Time}
    {dialID value : Int} {db' : DB}
    (h : SetDialMembershipValue ctx db now dialID value = .ok db') :
    ∃ m0 ∈ db.dialMemberships, m0.dialID = dialID ∧
      ∃ m', updateDialMembership ctx db now m0.id { value := some value } =
        .ok (m', db') := by
  simp only [SetDialMembershipValue] at h
  rcases hres : findDialMemberships ctx db
      { dialID := some dialID, userID := some (userIDFromContext ctx) } with ⟨memberships, n⟩
  rw [hres] at h
  dsimp only at h
  cases memberships with
  | nil =>
    dsimp only at h
    exact Except.noConfusion h
  | cons m0 rest =>
    dsimp only at h
    have hm0res : m0 ∈ (findDialMemberships ctx db
        { dialID := some dialID, userID := some (userIDFromContext ctx) }).1 := by
      rw [hres]
      exact List.mem_cons_self _ _
    obtain ⟨h1, _, h3, _, _, _⟩ := findDialMemberships_result_mem ctx db _ hm0res
    cases hupd : updateDialMembership ctx db now m0.id { value := some value } with
    | error e => rw [hupd, except_bind_error] at h; cases h
    | ok p =>
      obtain ⟨m1, db1⟩ := p
      rw [hupd] at h
      simp only [except_bind_ok] at h
      have hdb1 : db1 = db' := Except.ok.inj h
      exact ⟨m0, h1, h3 dialID rfl, m1, by rw [← hdb1]; exact hupd⟩

/-! ## Helper lemmas: the aggregate refresh establishes the invariant -/

theorem refreshDialValue_skip (db : DB) (now : Time) (id : Int)
    (h : ∀ d ∈ db.dials, d.id ≠ id) : refreshDialValue db now id = db := by
  have hf : db.dials.find? (fun d => d.id == id) = none :=
    List.find?_eq_none.mpr (fun d hd => by simp [h d hd])
  simp only [refreshDialValue, hf]

theorem refreshDialValue_invariant (db : DB) (now : Time) (id : Int)
    (hnd : UniqueDialIDs db) (hd : ∃ d ∈ db.dials, d.id = id) :
    dialAggregateInvariant (refreshDialValue db now id) id := by
  obtain ⟨d0, hd0, hd0i⟩ := hd
  have hfs : (db.dials.find? (fun d => d.id == id)).isSome :=
    List.find?_isSome.mpr ⟨d0, hd0, by simp [hd0i]⟩
  obtain ⟨d1, hf⟩ := Option.isSome_iff_exists.mp hfs
  have hd1mem := List.mem_of_find?_eq_some hf
  have hd1id : d1.id = id := by
    have hb := List.find?_some hf
    simpa using hb
  simp only [refreshDialValue, hf]
  split
  case isTrue heq =>
    intro d hdmem hdid
    have hdd1 : d = d1 :=
      mem_eq_of_nodup_key (fun d => d.id) hnd hdmem hd1mem
        (by show d.id = d1.id; rw [hdid, hd1id])
    subst hdd1
    exact eq_of_beq heq
  case isFalse hne =>
    simp only [dialAggregateInvariant, dialMembershipValues,
      publishDialEvent_dials, insertDialValue_dials,
      publishDialEvent_memberships, insertDialValue_memberships]
    intro d hdmem hdid
    obtain ⟨dOrig, hdo, hdof⟩ := List.mem_map.mp hdmem
    by_cases hc : (dOrig.id == id) = true
    · rw [if_pos hc] at hdof
      subst hdof
      rfl
    · rw [if_neg hc] at hdof
      subst hdof
      exact absurd (by simp [hdid]) hc

/-! ## Helper lemmas: rounding characterization and invariant transport -/

theorem roundAvg_halfUp (l : List Int) (hne : l ≠ []) (hs : 0 ≤ l.sum) :
    roundAvg l = ⌊(l.sum : ℚ) / l.length + 1/2⌋ := by
  have hlen : l.length ≠ 0 := fun h => hne (List.eq_nil_of_length_eq_zero h)
  have hlq : ((l.length : ℚ)) ≠ 0 := by exact_mod_cast hlen
  have heq : (l.sum : ℚ) / l.length + 1/2 =
      ((2 * l.sum + (l.length : Int) : Int) : ℚ) / ((2 * l.length : Nat) : ℚ) := by
    push_cast
    field_simp
    ring
  rw [heq, Rat.floor_intCast_div_natCast]
  simp only [roundAvg, hlen, if_false, roundHalfAwayFromZero, if_pos hs]
  norm_cast

theorem roundHalfAwayFromZero_neg (s : Int) (n : Nat) :
    roundHalfAwayFromZero (-s) n = -(roundHalfAwayFromZero s n) := by
  unfold roundHalfAwayFromZero
  rcases lt_trichotomy s 0 with h | h | h
  · rw [if_pos (by omega), if_neg (by omega)]
    simp
  · subst h
    simp only [neg_zero, le_refl, if_pos]
    cases n with
    | zero => simp
    | succ k =>
      have : (2 * 0 + ((k+1 : Nat) : Int)) / (2 * ((k+1 : Nat) : Int)) = 0 :=
        Int.ediv_eq_zero_of_lt (by omega) (by omega)
      rw [this]
      simp
  · rw [if_neg (by omega), if_pos (by omega)]
    simp

theorem sum_map_neg (l : List Int) : (l.map (fun x => -x)).sum = -l.sum := by
  induction l with
  | nil => simp
  | cons x xs ih => simp [ih]; ring

theorem roundAvg_neg (l : List Int) : roundAvg (l.map (fun x => -x)) = -(roundAvg l) := by
  simp only [roundAvg, List.length_map]
  split
  · simp
  · rw [sum_map_neg, roundHalfAwayFromZero_neg]

theorem dialAggregateInvariant_congr {dbA dbB : DB} (hd : dbB.dials = dbA.dials)
    (hm : dbB.dialMemberships = dbA.dialMemberships) (id : Int)
    (h : dialAggregateInvariant dbA id) : dialAggregateInvariant dbB id := by
  intro d hdm hdi
  rw [hd] at hdm
  rw [h d hdm hdi]
  simp only [dialMembershipValues, hm]

theorem updateDialMembership_invariant {ctx : Ctx} {db : DB} {now : Time} {id : Int}
    {upd : DialMembershipUpdate} {m' : DialMembership} {db' : DB}
    (hnd : UniqueDialIDs db)
    (h : updateDialMembership ctx db now id upd = .ok (m', db'))
    (hpre : dialAggregateInvariant db m'.dialID) :
    dialAggregateInvariant db' m'.dialID := by
  obtain ⟨-, ⟨d, hd, hdid⟩, hcase⟩ := updateDialMembership_ok_inv h
  cases hcase with
  | inl hdb => rw [hdb]; exact hpre
  | inr hdb =>
    rw [hdb]
    refine dialAggregateInvariant_congr (publishDialEvent_dials _ _ _)
      (publishDialEvent_memberships _ _ _) _ ?_
    exact refreshDialValue_invariant _ now m'.dialID hnd ⟨d, hd, hdid⟩

theorem find?_append_none {α : Type} {p : α → Bool} {l1 l2 : List α}
    (h : l1.find? p = none) : (l1 ++ l2).find? p = l2.find? p := by
  induction l1 with
  | nil => rfl
  | cons x xs ih =>
    cases hp : p x with
    | true => rw [List.find?_cons_of_pos _ hp] at h; cases h
    | false =>
      rw [List.find?_cons_of_neg _ (by simp [hp])] at h
      rw [List.cons_append, List.find?_cons_of_neg _ (by simp [hp])]
      exact ih h

theorem insertDialValue_fresh (db : DB) (id v : Int) (ts : Time)
    (h : ∀ r ∈ db.dialValues, r.dialID ≠ id) :
    insertDialValue db id v ts =
      { db with dialValues :=
          db.dialValues ++ [⟨id, timeTruncate ts oneMinute, v⟩] } := by
  have hany : db.dialValues.any
      (fun r => r.dialID == id && r.timestamp == timeTruncate ts oneMinute) = false := by
    rw [List.any_eq_false]
    intro r hr
    simp [h r hr]
  simp only [insertDialValue, hany, Bool.false_eq_true, if_false]

theorem refreshDialValue_found_unchanged {db : DB} {now : Time} {id : Int} {d : Dial}
    (hf : db.dials.find? (fun d0 => d0.id == id) = some d)
    (hv : d.value = roundAvg (dialMembershipValues db id)) :
    refreshDialValue db now id = db := by
  simp only [refreshDialValue, hf]
  split
  · rfl
  · rename_i hne
    exact absurd (beq_iff_eq.mpr hv) hne

theorem except_bind_ok_inv {α β : Type} {x : Except Error α} {f : α → Except Error β}
    {b : β} (h : x >>= f = .ok b) : ∃ a, x = .ok a ∧ f a = .ok b := by
  cases x with
  | error e => rw [except_bind_error] at h; cases h
  | ok a =>
    rw [except_bind_ok] at h
    exact ⟨a, rfl, h⟩

theorem createDial_shape {db : DB} {now : Time} {code : String} {dial0 : Dial}
    {d' : Dial} {db' : DB}
    (hfd : ∀ d0 ∈ db.dials, d0.id ≠ db.dialSeq)
    (hfm : ∀ m0 ∈ db.dialMemberships, m0.dialID ≠ db.dialSeq)
    (hfv : ∀ r ∈ db.dialValues, r.dialID ≠ db.dialSeq)
    (h : createDial db now code dial0 = .ok (d', db')) :
    d' = { dial0 with inviteCode := code, createdAt := now, updatedAt := now, id := db.dialSeq } ∧
    db' = { db with dials := db.dials ++ [{ dial0 with inviteCode := code, createdAt := now, updatedAt := now, id := db.dialSeq, value := 0 }], dialMemberships := db.dialMemberships ++ [⟨db.membershipSeq, db.dialSeq, dial0.userID, 0, now, now⟩], dialValues := db.dialValues ++ [⟨db.dialSeq, timeTruncate now oneMinute, dial0.value⟩], dialSeq := db.dialSeq + 1, membershipSeq := db.membershipSeq + 1 } := by
  simp only [createDial] at h
  obtain ⟨u, hval, h2⟩ := except_bind_ok_inv h
  cases u
  try dsimp only at h2
  obtain ⟨p, hcm, hret⟩ := except_bind_ok_inv h2
  obtain ⟨m1, db3⟩ := p
  try dsimp only at hret
  obtain ⟨hd', hdb'⟩ := Prod.mk.inj (Except.ok.inj hret)
  try dsimp only at hcm
  rw [insertDialValue_fresh { db with dials := db.dials ++ [{ dial0 with inviteCode := code, createdAt := now, updatedAt := now, id := db.dialSeq, value := 0 }], dialSeq := db.dialSeq + 1 } db.dialSeq dial0.value now hfv] at hcm
  try dsimp only at hcm
  obtain ⟨hm1, -, hdb3⟩ := createDialMembership_ok_inv hcm
  try dsimp only at hm1
  subst hm1
  try dsimp only at hdb3
  have hskip : refreshDialValue { db with dials := db.dials ++ [{ dial0 with inviteCode := code, createdAt := now, updatedAt := now, id := db.dialSeq, value := 0 }], dialMemberships := db.dialMemberships ++ [⟨db.membershipSeq, db.dialSeq, dial0.userID, 0, now, now⟩], dialValues := db.dialValues ++ [⟨db.dialSeq, timeTruncate now oneMinute, dial0.value⟩], dialSeq := db.dialSeq + 1, membershipSeq := db.membershipSeq + 1 } now db.dialSeq = { db with dials := db.dials ++ [{ dial0 with inviteCode := code, createdAt := now, updatedAt := now, id := db.dialSeq, value := 0 }], dialMemberships := db.dialMemberships ++ [⟨db.membershipSeq, db.dialSeq, dial0.userID, 0, now, now⟩], dialValues := db.dialValues ++ [⟨db.dialSeq, timeTruncate now oneMinute, dial0.value⟩], dialSeq := db.dialSeq + 1, membershipSeq := db.membershipSeq + 1 } := by
    refine refreshDialValue_found_unchanged (d := { dial0 with inviteCode := code, createdAt := now, updatedAt := now, id := db.dialSeq, value := 0 }) ?_ ?_
    · show (db.dials ++ [_]).find? _ = _
      rw [find?_append_none (List.find?_eq_none.mpr (fun d0 hd0 => by simp [hfd d0 hd0]))]
      rw [List.find?_cons_of_pos _ (by simp)]
    · show (0 : Int) = roundAvg (((db.dialMemberships ++ [_]).filter _).map _)
      rw [List.filter_append, List.filter_eq_nil_iff.mpr (fun m0 hm0 => by simp [hfm m0 hm0])]
      simp [roundAvg, roundHalfAwayFromZero]
  rw [hskip] at hdb3
  subst hdb3
  subst hdb'
  subst hd'
  exact ⟨rfl, rfl⟩

theorem getD_map_of_lt {α β : Type} (f : α → β) (l : List α) (i : Nat)
    (h : i < l.length) (d : β) (d' : α) : (l.map f).getD i d = f (l.getD i d') := by
  rw [List.getD_eq_getElem?_getD, List.getElem?_map, List.getD_eq_getElem?_getD,
    List.getElem?_eq_getElem h]
  rfl

theorem getD_mem_of_lt {α : Type} (l : List α) (i : Nat) (h : i < l.length) (d : α) :
    l.getD i d ∈ l := by
  rw [List.getD_eq_getElem?_getD, List.getElem?_eq_getElem h]
  exact List.getElem_mem _

theorem publishEvent_subs_length (svc : Inmem.EventService) (uid : Int) (ev : Event) :
    (Inmem.PublishEvent svc uid ev).subs.length = svc.subs.length := by
  simp only [Inmem.PublishEvent]
  split
  · rfl
  · exact List.length_map _ _

theorem publishEvent_getD (svc : Inmem.EventService) (uid : Int) (ev : Event) (i : Nat)
    (hi : i < svc.subs.length) (d : Inmem.Subscription) :
    (Inmem.PublishEvent svc uid ev).subs.getD i d =
      (if (svc.subs.getD i d).registered && (svc.subs.getD i d).userID == uid then
        if (svc.subs.getD i d).queue.length < Inmem.EventBufferSize then
          { svc.subs.getD i d with queue := (svc.subs.getD i d).queue ++ [ev] }
        else Inmem.unsubscribeSub (svc.subs.getD i d)
      else svc.subs.getD i d) := by
  simp only [Inmem.PublishEvent]
  split
  · rename_i hemp
    have hnil : svc.subs.filter (fun s => s.registered && s.userID == uid) = [] :=
      List.isEmpty_iff.mp hemp
    have hnp := List.filter_eq_nil_iff.mp hnil _ (getD_mem_of_lt svc.subs i hi d)
    have hpred : ((svc.subs.getD i d).registered && (svc.subs.getD i d).userID == uid)
        = false := by
      cases hb : ((svc.subs.getD i d).registered && (svc.subs.getD i d).userID == uid) with
      | false => rfl
      | true => exact absurd hb hnp
    rw [hpred]
    simp
  · rw [show (⟨svc.subs.map (fun s =>
        if s.registered && s.userID == uid then
          if s.queue.length < Inmem.EventBufferSize then { s with queue := s.queue ++ [ev] }
          else Inmem.unsubscribeSub s
        else s)⟩ : Inmem.EventService).subs = svc.subs.map (fun s =>
        if s.registered && s.userID == uid then
          if s.queue.length < Inmem.EventBufferSize then { s with queue := s.queue ++ [ev] }
          else Inmem.unsubscribeSub s
        else s) from rfl]
    rw [getD_map_of_lt _ _ _ hi _ d]

/-! ## Helper lemmas for the report claim: sentinel simulation -/

theorem backfill_map_getD (l : List (Option Int)) (last : Int)
    (h : ∀ v : Int, some v ∈ l → v ≠ -1) :
    backfill last (l.map (fun o => o.getD (-1))) = specCarryForward last l := by
  induction l generalizing last with
  | nil => rfl
  | cons o rest ih =>
    cases o with
    | none =>
      simp only [List.map_cons, Option.getD_none, backfill, specCarryForward]
      rw [if_neg (by simp)]
      rw [ih last (fun v hv => h v (List.mem_cons_of_mem _ hv))]
    | some v =>
      have hv : v ≠ -1 := h v (List.mem_cons_self _ _)
      simp only [List.map_cons, Option.getD_some, backfill, specCarryForward]
      rw [if_pos hv]
      rw [ih v (fun w hw => h w (List.mem_cons_of_mem _ hw))]

theorem foldl_set_nil {α β : Type} (f : β → Nat) (g : β → α) (rows : List β) :
    rows.foldl (fun (vs : List α) r => vs.set (f r) (g r)) [] = ([] : List α) := by
  induction rows with
  | nil => rfl
  | cons r rs ih =>
    rw [List.foldl_cons]
    simpa using ih

theorem foldl_set_mem {α β : Type} (f : β → Nat) (g : β → α) (rows : List β)
    (acc : List α) {P : α → Prop} (hacc : ∀ x ∈ acc, P x)
    (hrows : ∀ r ∈ rows, P (g r)) :
    ∀ x ∈ rows.foldl (fun vs r => vs.set (f r) (g r)) acc, P x := by
  induction rows generalizing acc with
  | nil => exact hacc
  | cons r rs ih =>
    intro x hx
    rw [List.foldl_cons] at hx
    refine ih _ ?_ (fun r' hr' => hrows r' (List.mem_cons_of_mem _ hr')) x hx
    intro y hy
    rcases List.mem_or_eq_of_mem_set hy with h | h
    · exact hacc y h
    · rw [h]
      exact hrows r (List.mem_cons_self _ _)

theorem specCarryForward_length (l : List (Option Int)) (last : Int) :
    (specCarryForward last l).length = l.length := by
  induction l generalizing last with
  | nil => rfl
  | cons o rest ih =>
    cases o with
    | none => simp [specCarryForward, ih]
    | some v => simp [specCarryForward, ih]

theorem specCarryForward_nonneg (l : List (Option Int)) (last : Int) (hlast : 0 ≤ last)
    (h : ∀ o ∈ l, ∀ w : Int, o = some w → 0 ≤ w) :
    ∀ v ∈ specCarryForward last l, 0 ≤ v := by
  induction l generalizing last with
  | nil => intro v hv; cases hv
  | cons o rest ih =>
    cases o with
    | none =>
      intro v hv
      rcases List.mem_cons.mp hv with rfl | hv'
      · exact hlast
      · exact ih last hlast (fun o ho w hw => h o (List.mem_cons_of_mem _ ho) w hw) v hv'
    | some w =>
      have hw : 0 ≤ w := h _ (List.mem_cons_self _ _) w rfl
      intro v hv
      rcases List.mem_cons.mp hv with rfl | hv'
      · exact hw
      · exact ih w hw (fun o ho w' hw' => h o (List.mem_cons_of_mem _ ho) w' hw') v hv'

theorem orderBy_head_max {α : Type} {le : α → α → Bool}
    (htr : ∀ a b c, le a b = true → le b c = true → le a c = true)
    (htot : ∀ a b, (le a b || le b a) = true) {l : List α} {r : α} {rest : List α}
    (h : orderBy le l = r :: rest) : r ∈ l ∧ ∀ x ∈ l, le r x = true := by
  have hmem : r ∈ l := (mem_orderBy le l r).mp (h ▸ List.mem_cons_self _ _)
  refine ⟨hmem, ?_⟩
  intro x hx
  have hx' : x ∈ orderBy le l := (mem_orderBy le l x).mpr hx
  rw [h] at hx'
  rcases List.mem_cons.mp hx' with rfl | hx''
  · have hxx := htot x x
    simpa using hxx
  · have hp := pairwise_orderBy htr htot l
    rw [h] at hp
    exact (List.pairwise_cons.mp hp).1 x hx''

theorem seed_foldl_argmax (l : List DialValueRow) (a : DialValueRow) :
    ∃ r : DialValueRow,
      l.foldl (fun acc r => match acc with
        | none => some r
        | some a => if decide (a.timestamp < r.timestamp) then some r else some a)
        (some a) = some r ∧
      (r = a ∨ r ∈ l) ∧ a.timestamp ≤ r.timestamp ∧
      ∀ x ∈ l, x.timestamp ≤ r.timestamp := by
  induction l generalizing a with
  | nil =>
    exact ⟨a, rfl, Or.inl rfl, le_refl _, fun x hx => absurd hx (List.not_mem_nil x)⟩
  | cons y ys ih =>
    rw [List.foldl_cons]
    dsimp only
    by_cases h : a.timestamp < y.timestamp
    · rw [if_pos (decide_eq_true h)]
      obtain ⟨r, h1, h2, h3, h4⟩ := ih y
      refine ⟨r, h1, ?_, le_of_lt (lt_of_lt_of_le h h3), ?_⟩
      · rcases h2 with rfl | h2'
        · exact Or.inr (List.mem_cons_self _ _)
        · exact Or.inr (List.mem_cons_of_mem _ h2')
      · intro x hx
        rcases List.mem_cons.mp hx with rfl | hx'
        · exact h3
        · exact h4 x hx'
    · rw [if_neg (by simpa using h)]
      obtain ⟨r, h1, h2, h3, h4⟩ := ih a
      refine ⟨r, h1, ?_, h3, ?_⟩
      · rcases h2 with rfl | h2'
        · exact Or.inl rfl
        · exact Or.inr (List.mem_cons_of_mem _ h2')
      · intro x hx
        rcases List.mem_cons.mp hx with rfl | hx'
        · exact le_trans (le_of_not_lt h) h3
        · exact h4 x hx'

theorem seed_eq (db : DB) (id : Int) (start : Time)
    (hnd : UniqueValueKeys db.dialValues) :
    (match orderBy (fun a b => decide (b.timestamp ≤ a.timestamp))
        (db.dialValues.filter (fun r => r.dialID == id && decide (r.timestamp ≤ start))) with
      | [] => 0
      | r :: _ => r.value) = specSeedValue db id start := by
  cases hs : orderBy (fun a b => decide (b.timestamp ≤ a.timestamp))
      (db.dialValues.filter (fun r => r.dialID == id && decide (r.timestamp ≤ start))) with
  | nil =>
    have hl := length_orderBy (fun a b => decide (b.timestamp ≤ a.timestamp))
      (db.dialValues.filter (fun r => r.dialID == id && decide (r.timestamp ≤ start)))
    rw [hs] at hl
    have hf : db.dialValues.filter
        (fun r => r.dialID == id && decide (r.timestamp ≤ start)) = [] :=
      List.length_eq_zero.mp hl.symm
    simp [specSeedValue, hf]
  | cons r rest =>
    obtain ⟨hrmem, hrmax⟩ := orderBy_head_max
      (fun a b c hab hbc => by
        simp only [decide_eq_true_eq] at hab hbc ⊢
        exact le_trans hbc hab)
      (fun a b => by
        simp only [Bool.or_eq_true, decide_eq_true_eq]
        exact le_total _ _) hs
    have hrfil := hrmem
    cases hf : db.dialValues.filter
        (fun r => r.dialID == id && decide (r.timestamp ≤ start)) with
    | nil => rw [hf] at hrmem; cases hrmem
    | cons x xs =>
      rw [hf] at hrmem hrmax
      simp only [specSeedValue, hf, List.foldl_cons]
      obtain ⟨r2, h1, h2, h3, h4⟩ := seed_foldl_argmax xs x
      rw [h1]
      have hr2mem : r2 ∈ x :: xs := by
        rcases h2 with rfl | h2'
        · exact List.mem_cons_self _ _
        · exact List.mem_cons_of_mem _ h2'
      have hr2max : ∀ z ∈ x :: xs, z.timestamp ≤ r2.timestamp := by
        intro z hz
        rcases List.mem_cons.mp hz with rfl | hz'
        · exact h3
        · exact h4 z hz'
      have hts : r.timestamp = r2.timestamp := by
        refine le_antisymm (hr2max r hrmem) ?_
        have := hrmax r2 hr2mem
        simpa using this
      have hndf : ((x :: xs).map (fun r => (r.dialID, r.timestamp))).Nodup := by
        rw [← hf]
        exact (List.Sublist.map _ (List.filter_sublist _)).nodup hnd
      have hdr : r.dialID = id := by
        have hc := (List.mem_filter.mp hrfil).2
        simp only [Bool.and_eq_true, beq_iff_eq] at hc
        exact hc.1
      have hdr2 : r2.dialID = id := by
        have hr2fil : r2 ∈ db.dialValues.filter
            (fun r => r.dialID == id && decide (r.timestamp ≤ start)) := by
          rw [hf]
          exact hr2mem
        have hc := (List.mem_filter.mp hr2fil).2
        simp only [Bool.and_eq_true, beq_iff_eq] at hc
        exact hc.1
      have hrr2 : r = r2 :=
        mem_eq_of_nodup_key (fun r => (r.dialID, r.timestamp)) hndf hrmem hr2mem
          (by show (r.dialID, r.timestamp) = (r2.dialID, r2.timestamp)
              rw [hdr, hdr2, hts])
      rw [hrr2]

theorem foldl_set_sentinel (start : Time) (interval : Duration)
    (rows : List DialValueRow) (acc : List (Option Int))
    (hrows : ∀ r ∈ rows, (Int.tdiv (r.timestamp - start) interval).toNat =
      (Int.fdiv (r.timestamp - start) interval).toNat) :
    rows.foldl (fun vs r => vs.set (Int.tdiv (r.timestamp - start) interval).toNat r.value)
      (acc.map (fun o => o.getD (-1))) =
    (rows.foldl (fun vs r => vs.set (Int.fdiv (r.timestamp - start) interval).toNat
      (some r.value)) acc).map (fun o => o.getD (-1)) := by
  induction rows generalizing acc with
  | nil => rfl
  | cons r rs ih =>
    rw [List.foldl_cons, List.foldl_cons]
    have hstep : (acc.map (fun o => o.getD (-1))).set
        (Int.tdiv (r.timestamp - start) interval).toNat r.value =
        (acc.set (Int.fdiv (r.timestamp - start) interval).toNat (some r.value)).map
          (fun o => o.getD (-1)) := by
      rw [hrows r (List.mem_cons_self _ _), List.map_set]
      rfl
    rw [hstep]
    exact ih _ (fun r' hr' => hrows r' (List.mem_cons_of_mem _ hr'))

theorem foldl_setSpec_nil (start : Time) (interval : Duration) (rows : List DialValueRow) :
    rows.foldl (fun (vs : List (Option Int)) r =>
      vs.set (Int.fdiv (r.timestamp - start) interval).toNat (some r.value)) [] = [] := by
  induction rows with
  | nil => rfl
  | cons r rs ih =>
    rw [List.foldl_cons, List.set_nil]
    exact ih

theorem specSeedValue_nonneg (db : DB) (id : Int) (start : Time)
    (hv : ∀ r ∈ db.dialValues, 0 ≤ r.value) : 0 ≤ specSeedValue db id start := by
  simp only [specSeedValue]
  cases hfl : db.dialValues.filter
      (fun r => r.dialID == id && decide (r.timestamp ≤ start)) with
  | nil => simp
  | cons x xs =>
    simp only [List.foldl_cons]
    obtain ⟨r, h1, h2, h3, h4⟩ := seed_foldl_argmax xs x
    rw [h1]
    have hrmem : r ∈ db.dialValues := by
      refine List.mem_of_mem_filter (l := db.dialValues)
        (p := fun r => r.dialID == id && decide (r.timestamp ≤ start)) ?_
      rw [hfl]
      rcases h2 with rfl | h2'
      · exact List.mem_cons_self _ _
      · exact List.mem_cons_of_mem _ h2'
    exact hv r hrmem

theorem slots_eq (db : DB) (id : Int) (start finish : Time) (interval : Duration)
    (hnd : UniqueValueKeys db.dialValues)
    (hv : ∀ r ∈ db.dialValues, 0 ≤ r.value)
    (hipos : 0 < interval) :
    findDialValueSlotsBetween db id start finish interval =
      specSlots db id start finish interval (Int.tdiv (finish - start) interval).toNat := by
  simp only [findDialValueSlotsBetween, specSlots, List.length_replicate]
  split
  case isTrue hn =>
    rw [hn, List.replicate_zero, List.replicate_zero, List.set_nil,
      foldl_setSpec_nil start interval]
    rfl
  case isFalse hn =>
    rw [seed_eq db id start hnd]
    have hbase : (List.replicate (Int.tdiv (finish - start) interval).toNat (-1 : Int)).set 0
        (specSeedValue db id start) =
        ((List.replicate (Int.tdiv (finish - start) interval).toNat (none : Option Int)).set 0
          (some (specSeedValue db id start))).map (fun o => o.getD (-1)) := by
      rw [List.map_set, List.map_replicate]
      rfl
    rw [hbase]
    have hidx : ∀ r ∈ orderBy (fun a b => decide (a.timestamp ≤ b.timestamp))
        (db.dialValues.filter (fun r =>
          r.dialID == id && decide (start ≤ r.timestamp) && decide (r.timestamp < finish))),
        (Int.tdiv (r.timestamp - start) interval).toNat =
          (Int.fdiv (r.timestamp - start) interval).toNat := by
      intro r hr
      have hrf := (mem_orderBy _ _ r).mp hr
      have hc := (List.mem_filter.mp hrf).2
      simp only [Bool.and_eq_true, decide_eq_true_eq] at hc
      obtain ⟨⟨-, hc1⟩, hc2⟩ := hc
      rw [(Int.fdiv_eq_tdiv (sub_nonneg.mpr hc1) (le_of_lt hipos)).symm]
    rw [foldl_set_sentinel start interval _ _ hidx]
    refine backfill_map_getD _ 0 ?_
    intro v hvmem
    have hP := foldl_set_mem
      (fun r : DialValueRow => (Int.fdiv (r.timestamp - start) interval).toNat)
      (fun r : DialValueRow => some r.value)
      (orderBy (fun a b => decide (a.timestamp ≤ b.timestamp))
        (db.dialValues.filter (fun r =>
          r.dialID == id && decide (start ≤ r.timestamp) && decide (r.timestamp < finish))))
      ((List.replicate (Int.tdiv (finish - start) interval).toNat (none : Option Int)).set 0
        (some (specSeedValue db id start)))
      (P := fun o => ∀ w : Int, o = some w → 0 ≤ w)
      (by
        intro o ho w hw
        rcases List.mem_or_eq_of_mem_set ho with ho' | ho'
        · rw [List.eq_of_mem_replicate ho'] at hw
          cases hw
        · rw [ho'] at hw
          cases hw
          exact specSeedValue_nonneg db id start hv)
      (by
        intro r hr w hw
        cases hw
        have hrf := (mem_orderBy _ _ r).mp hr
        exact hv r (List.mem_of_mem_filter hrf))
    have h0 : 0 ≤ v := hP _ hvmem v rfl
    omega

theorem specSlots_nonneg (db : DB) (id : Int) (start finish : Time) (interval : Duration)
    (n : Nat) (hv : ∀ r ∈ db.dialValues, 0 ≤ r.value) :
    ∀ v ∈ specSlots db id start finish interval n, 0 ≤ v := by
  simp only [specSlots]
  refine specCarryForward_nonneg _ 0 (le_refl 0) ?_
  intro o ho w hw
  have hP := foldl_set_mem
    (fun r : DialValueRow => (Int.fdiv (r.timestamp - start) interval).toNat)
    (fun r : DialValueRow => some r.value)
    (orderBy (fun a b => decide (a.timestamp ≤ b.timestamp))
      (db.dialValues.filter (fun r =>
        r.dialID == id && decide (start ≤ r.timestamp) && decide (r.timestamp < finish))))
    ((List.replicate n (none : Option Int)).set 0 (some (specSeedValue db id start)))
    (P := fun o => ∀ w : Int, o = some w → 0 ≤ w)
    (by
      intro o ho w hw
      rcases List.mem_or_eq_of_mem_set ho with ho' | ho'
      · rw [List.eq_of_mem_replicate ho'] at hw
        cases hw
      · rw [ho'] at hw
        cases hw
        exact specSeedValue_nonneg db id start hv)
    (by
      intro r hr w hw
      cases hw
      have hrf := (mem_orderBy _ _ r).mp hr
      exact hv r (List.mem_of_mem_filter hrf))
  exact hP o ho w hw

theorem tdiv_avg_eq_specAvgAt (valuess : List (List Int)) (i : Nat)
    (h : ∀ vs ∈ valuess, ∀ v ∈ vs, 0 ≤ v) :
    (if valuess.length = 0 then 0
     else Int.tdiv ((valuess.map (fun vs => vs.getD i 0)).sum) valuess.length) =
    specAvgAt valuess i := by
  simp only [specAvgAt]
  split
  · rfl
  · rename_i hne
    refine (Int.fdiv_eq_tdiv ?_ (by exact_mod_cast Nat.zero_le _)).symm
    refine List.sum_nonneg ?_
    intro x hx
    obtain ⟨vs, hvs, rfl⟩ := List.mem_map.mp hx
    by_cases hlen : i < vs.length
    · exact h vs hvs _ (getD_mem_of_lt vs i hlen 0)
    · rw [List.getD_eq_default vs 0 (le_of_not_lt hlen)]

/-! ## Claim C2 -/

/-- C2: the history table keeps at most one row per `(dial_id, minute)` —
`insertDialValue` preserves key uniqueness; inserting at an existing
`(dial_id, minute)` key overwrites that bucket's value, so after any insert
the bucket holds exactly the written value, and two inserts within the same
minute leave exactly one row at that minute holding the last-written value. -/
theorem claimC2_history_minute_buckets :
    (∀ (db : DB) (id v : Int) (ts : Time), UniqueValueKeys db.dialValues →
      UniqueValueKeys (insertDialValue db id v ts).dialValues) ∧
    (∀ (db : DB) (id v : Int) (ts : Time), UniqueValueKeys db.dialValues →
      (insertDialValue db id v ts).dialValues.filter
          (fun r => r.dialID == id && r.timestamp == timeTruncate ts oneMinute) =
        [{ dialID := id, timestamp := timeTruncate ts oneMinute, value := v }]) ∧
    (∀ (db : DB) (id v1 v2 : Int) (ts1 ts2 : Time), UniqueValueKeys db.dialValues →
      timeTruncate ts1 oneMinute = timeTruncate ts2 oneMinute →
      (insertDialValue (insertDialValue db id v1 ts1) id v2 ts2).dialValues.filter
          (fun r => r.dialID == id && r.timestamp == timeTruncate ts1 oneMinute) =
        [{ dialID := id, timestamp := timeTruncate ts1 oneMinute, value := v2 }]) := by
  refine ⟨insertDialValue_unique, insertDialValue_filter_key, ?_⟩
  intro db id v1 v2 ts1 ts2 h htr
  rw [htr]
  exact insertDialValue_filter_key (insertDialValue db id v1 ts1) id v2 ts2
    (insertDialValue_unique db id v1 ts1 h)

/-- Witness for C2 at a concrete state: two inserts at 61s and 90s (the same
minute bucket 60) leave exactly one row holding the second value. -/
theorem claimC2_history_minute_buckets_witness :
    UniqueValueKeys exDB0.dialValues ∧
    timeTruncate 61 oneMinute = timeTruncate 90 oneMinute ∧
    (insertDialValue (insertDialValue exDB0 1 10 61) 1 20 90).dialValues.filter
        (fun r => r.dialID == 1 && r.timestamp == timeTruncate 61 oneMinute) =
      [{ dialID := 1, timestamp := timeTruncate 61 oneMinute, value := 20 }] :=
  ⟨by decide, by decide,
    claimC2_history_minute_buckets.2.2 exDB0 1 10 20 61 90 (by decide) (by decide)⟩

/-! ## Claim C4 -/

/-- C4: a principal who neither owns a dial nor holds a membership in it gets
`ENOTFOUND` from `FindDialByID`, with the same error value as when the dial
does not exist at all; `FindDials` without an invite code returns exactly the
dials the principal has a membership in; `FindDials` with an invite code
returns the dials carrying that code regardless of membership. -/
theorem claimC4_dial_visibility :
    (∀ (ctx : Ctx) (db : DB) (id : Int),
      (∀ d ∈ db.dials, ¬(d.id = id ∧ d.userID = userIDFromContext ctx)) →
      (∀ m1 ∈ db.dialMemberships,
        ¬(m1.dialID = id ∧ m1.userID = userIDFromContext ctx)) →
      FindDialByID ctx db id = .error ⟨.ENOTFOUND, "Dial not found."⟩) ∧
    (∀ (ctx : Ctx) (db : DB) (id : Int),
      (∀ d ∈ db.dials, d.id ≠ id) →
      FindDialByID ctx db id = .error ⟨.ENOTFOUND, "Dial not found."⟩) ∧
    (∀ (ctx : Ctx) (db : DB),
      (∀ d ∈ db.dials, ∃ u ∈ db.users, u.id = d.userID) →
      ∃ dials n, FindDials ctx db {} = .ok (dials, n) ∧
        ∀ d, d ∈ dials ↔ d ∈ db.dials ∧ ∃ m1 ∈ db.dialMemberships,
          m1.dialID = d.id ∧ m1.userID = userIDFromContext ctx) ∧
    (∀ (ctx : Ctx) (db : DB) (code : String),
      (∀ d ∈ db.dials, ∃ u ∈ db.users, u.id = d.userID) →
      ∃ dials n, FindDials ctx db { inviteCode := some code } = .ok (dials, n) ∧
        ∀ d, d ∈ dials ↔ d ∈ db.dials ∧ d.inviteCode = code) := by
  refine ⟨?_, ?_, ?_, ?_⟩
  · intro ctx db id hown hmem
    have h1 : findDialByID ctx db id = .error ⟨.ENOTFOUND, "Dial not found."⟩ := by
      rw [findDialByID, findDials_id_nomember ctx db id hmem]
    simp only [FindDialByID, h1]
    rfl
  · intro ctx db id hno
    have h1 : findDialByID ctx db id = .error ⟨.ENOTFOUND, "Dial not found."⟩ := by
      rw [findDialByID, findDials_id_nodial ctx db id hno]
    simp only [FindDialByID, h1]
    rfl
  · intro ctx db howner
    rcases hp : findDials ctx db {} with ⟨dials, n⟩
    have hsub : ∀ d ∈ dials, ∃ u ∈ db.users, u.id = d.userID := by
      intro d hd
      have hmem : d ∈ (findDials ctx db {}).1 := by rw [hp]; exact hd
      exact howner d ((mem_findDials_noInvite ctx db d).mp hmem).1
    obtain ⟨us, hus⟩ := mapM_attach_ok db hsub
    refine ⟨dials, n, ?_, ?_⟩
    · simp only [FindDials, hp, hus]
      rfl
    · intro d
      rw [show dials = (findDials ctx db {}).1 by rw [hp]]
      exact mem_findDials_noInvite ctx db d
  · intro ctx db code howner
    rcases hp : findDials ctx db { inviteCode := some code } with ⟨dials, n⟩
    have hsub : ∀ d ∈ dials, ∃ u ∈ db.users, u.id = d.userID := by
      intro d hd
      have hmem : d ∈ (findDials ctx db { inviteCode := some code }).1 := by
        rw [hp]; exact hd
      exact howner d ((mem_findDials_inviteCode ctx db code d).mp hmem).1
    obtain ⟨us, hus⟩ := mapM_attach_ok db hsub
    refine ⟨dials, n, ?_, ?_⟩
    · simp only [FindDials, hp, hus]
      rfl
    · intro d
      rw [show dials = (findDials ctx db { inviteCode := some code }).1 by rw [hp]]
      exact mem_findDials_inviteCode ctx db code d

/-- Witness for C4 at the concrete example state: eve (user 4, no membership)
cannot see dial 1; a missing dial id gives the same error; member listing and
invite-code discovery behave as stated. -/
theorem claimC4_dial_visibility_witness :
    ((∀ d ∈ exDB.dials, ¬(d.id = 1 ∧ d.userID = userIDFromContext (some exUser4))) ∧
     (∀ m1 ∈ exDB.dialMemberships,
        ¬(m1.dialID = 1 ∧ m1.userID = userIDFromContext (some exUser4))) ∧
     FindDialByID (some exUser4) exDB 1 = .error ⟨.ENOTFOUND, "Dial not found."⟩) ∧
    ((∀ d ∈ exDB.dials, d.id ≠ 99) ∧
     FindDialByID (some exUser4) exDB 99 = .error ⟨.ENOTFOUND, "Dial not found."⟩) ∧
    ((∀ d ∈ exDB.dials, ∃ u ∈ exDB.users, u.id = d.userID) ∧
     ∃ dials n, FindDials (some exUser4) exDB { inviteCode := some "code1" } = .ok (dials, n) ∧
       ∀ d, d ∈ dials ↔ d ∈ exDB.dials ∧ d.inviteCode = "code1") :=
  ⟨⟨by decide, by decide,
      claimC4_dial_visibility.1 (some exUser4) exDB 1 (by decide) (by decide)⟩,
   ⟨by decide, claimC4_dial_visibility.2.1 (some exUser4) exDB 99 (by decide)⟩,
   ⟨by decide, claimC4_dial_visibility.2.2.2 (some exUser4) exDB "code1" (by decide)⟩⟩

/-! ## Claim C10 -/

/-- C10 counterexample to "every other mutating operation reports unauthorized
when no principal is present": `UpdateDial` with an absent principal reports
`ENOTFOUND` (the dial is invisible to user id 0), not `EUNAUTHORIZED`. -/
theorem claimC10_counterexample :
    UpdateDial none exDB 0 1 { name := some "x" } =
      .error ⟨.ENOTFOUND, "Dial not found."⟩ ∧
    ∀ msg, UpdateDial none exDB 0 1 { name := some "x" } ≠
      .error ⟨.EUNAUTHORIZED, msg⟩ := by
  refine ⟨rfl, ?_⟩
  intro msg h
  rw [show UpdateDial none exDB 0 1 { name := some "x" } =
    .error ⟨.ENOTFOUND, "Dial not found."⟩ from rfl] at h
  simp at h

/-- C10 (amended): `SetDialMembershipValue` with an absent principal — and in
general whenever the principal holds no membership in the dial — fails with
`ENOTFOUND` ("User is not a member of this dial.") and commits nothing, while
the create operations (`CreateDial`, `CreateDialMembership`) are the mutating
operations that report `EUNAUTHORIZED` on an absent principal. -/
theorem claimC10_set_value_not_found :
    (∀ (db : DB) (now : Time) (dialID value : Int),
      (∀ m' ∈ db.dialMemberships, m'.userID ≠ 0) →
      SetDialMembershipValue none db now dialID value =
        .error ⟨.ENOTFOUND, "User is not a member of this dial."⟩) ∧
    (∀ (ctx : Ctx) (db : DB) (now : Time) (dialID value : Int),
      (∀ m' ∈ db.dialMemberships,
        ¬(m'.dialID = dialID ∧ m'.userID = userIDFromContext ctx)) →
      SetDialMembershipValue ctx db now dialID value =
        .error ⟨.ENOTFOUND, "User is not a member of this dial."⟩) ∧
    (∀ (ctx : Ctx) (db : DB) (now : Time) (code : String) (dial : Dial),
      userIDFromContext ctx = 0 →
      CreateDial ctx db now code dial =
        .error ⟨.EUNAUTHORIZED, "You must be logged in to create a dial."⟩) ∧
    (∀ (ctx : Ctx) (db : DB) (now : Time) (m : DialMembership),
      userIDFromContext ctx = 0 →
      CreateDialMembership ctx db now m =
        .error ⟨.EUNAUTHORIZED, "You must be logged in to join a dial."⟩) := by
  refine ⟨?_, ?_, ?_, ?_⟩
  · intro db now dialID value h
    exact setDialMembershipValue_nomember none db now dialID value
      (fun m' hm' hc => h m' hm' hc.2)
  · intro ctx db now dialID value h
    exact setDialMembershipValue_nomember ctx db now dialID value h
  · intro ctx db now code dial h
    simp only [CreateDial, h]
    rfl
  · intro ctx db now m h
    simp only [CreateDialMembership, h]
    rfl

/-- Witness for C10's amended theorem at the example state: an absent
principal and a member-less principal both get `ENOTFOUND`; an absent
principal creating a dial gets `EUNAUTHORIZED`. -/
theorem claimC10_set_value_not_found_witness :
    ((∀ m' ∈ exDB.dialMemberships, m'.userID ≠ 0) ∧
     SetDialMembershipValue none exDB 0 1 60 =
       .error ⟨.ENOTFOUND, "User is not a member of this dial."⟩) ∧
    ((∀ m' ∈ exDB.dialMemberships,
        ¬(m'.dialID = 1 ∧ m'.userID = userIDFromContext (some exUser4))) ∧
     SetDialMembershipValue (some exUser4) exDB 0 1 60 =
       .error ⟨.ENOTFOUND, "User is not a member of this dial."⟩) ∧
    (userIDFromContext none = 0 ∧
     CreateDial none exDB 0 "c" exDialNew =
       .error ⟨.EUNAUTHORIZED, "You must be logged in to create a dial."⟩) :=
  ⟨⟨by decide, claimC10_set_value_not_found.1 exDB 0 1 60 (by decide)⟩,
   ⟨by decide, claimC10_set_value_not_found.2.1 (some exUser4) exDB 0 1 60 (by decide)⟩,
   ⟨rfl, claimC10_set_value_not_found.2.2.1 none exDB 0 "c" exDialNew rfl⟩⟩

/-! ## Claim C5 -/

/-- C5 counterexample: jim (user 2) is a member of dial 1, neither dial owner
nor the target membership's user, and the target membership (id 1) belongs to
the dial's owner jane. The claim's rule order says `conflict`; the code checks
authorization first and returns `unauthorized`. -/
theorem claimC5_counterexample :
    DeleteDialMembership (some exUser2) exDB 120 1 =
      .error ⟨.EUNAUTHORIZED,
        "You do not have permission to delete the dial membership."⟩ ∧
    DeleteDialMembership (some exUser2) exDB 120 1 ≠
      .error ⟨.ECONFLICT, "Dial owner may not delete their own membership."⟩ := by
  refine ⟨rfl, ?_⟩
  intro h
  rw [show DeleteDialMembership (some exUser2) exDB 120 1 =
    .error ⟨.EUNAUTHORIZED,
      "You do not have permission to delete the dial membership."⟩ from rfl] at h
  simp at h

/-- C5 (amended): `deleteDialMembership` applies its rules with the
authorization check first — a principal who is neither the dial owner nor the
membership's own user gets `unauthorized` (even when the target membership
belongs to the dial owner); an authorized principal targeting the dial
owner's own membership gets `conflict`; otherwise the row is deleted and the
dial aggregate refreshed. -/
theorem claimC5_delete_rules (ctx : Ctx) (db : DB) (now : Time)
    (m : DialMembership) (d : Dial)
    (hm : m ∈ db.dialMemberships) (hnd : UniqueMembershipIDs db)
    (hdm : d ∈ db.dials) (hndd : UniqueDialIDs db) (hdi : d.id = m.dialID)
    (hu : ∃ u' ∈ db.users, u'.id = m.userID)
    (hvis : ∃ m1 ∈ db.dialMemberships, m1.dialID = m.dialID ∧
      m1.userID = userIDFromContext ctx) :
    (m.userID ≠ userIDFromContext ctx → d.userID ≠ userIDFromContext ctx →
      DeleteDialMembership ctx db now m.id =
        .error ⟨.EUNAUTHORIZED,
          "You do not have permission to delete the dial membership."⟩) ∧
    ((m.userID = userIDFromContext ctx ∨ d.userID = userIDFromContext ctx) →
      m.userID = d.userID →
      DeleteDialMembership ctx db now m.id =
        .error ⟨.ECONFLICT, "Dial owner may not delete their own membership."⟩) ∧
    ((m.userID = userIDFromContext ctx ∨ d.userID = userIDFromContext ctx) →
      m.userID ≠ d.userID →
      DeleteDialMembership ctx db now m.id =
        .ok (refreshDialValue
          { db with dialMemberships := db.dialMemberships.filter (fun m' => !(m'.id == m.id)) }
          now m.dialID)) := by
  have hfind := findDialMembershipByID_ok ctx db hm hnd ⟨d, hdm, hdi⟩ hu hvis
  obtain ⟨u0, hu0m, hu0i⟩ := hu
  obtain ⟨u', huf⟩ : ∃ u', findUserByID db m.userID = .ok u' :=
    hu0i ▸ findUserByID_ok db hu0m
  have hattach := attachMembership_eq ctx db m hdm hndd hdi hvis huf
  refine ⟨?_, ?_, ?_⟩
  · intro h1 h2
    simp only [DeleteDialMembership, deleteDialMembership, hfind, hattach, except_bind_ok]
    rw [if_pos ⟨h1, h2⟩]
    rfl
  · intro hOr hEq
    simp only [DeleteDialMembership, deleteDialMembership, hfind, hattach, except_bind_ok]
    rw [if_neg (by tauto), if_pos hEq]
    rfl
  · intro hOr hNe
    simp only [DeleteDialMembership, deleteDialMembership, hfind, hattach, except_bind_ok]
    rw [if_neg (by tauto), if_neg hNe]
    rfl

/-- Witness for C5's amended rules at the concrete state: jane (the owner)
deleting her own membership gets `conflict`; jane deleting jim's membership
succeeds and refreshes the aggregate. -/
theorem claimC5_delete_rules_witness :
    (exMem1 ∈ exDB.dialMemberships ∧ exDial ∈ exDB.dials ∧
      exDial.id = exMem1.dialID ∧
      DeleteDialMembership (some exUser1) exDB 120 exMem1.id =
        .error ⟨.ECONFLICT, "Dial owner may not delete their own membership."⟩) ∧
    (DeleteDialMembership (some exUser1) exDB 120 exMem2.id =
      .ok (refreshDialValue
        { exDB with dialMemberships := exDB.dialMemberships.filter (fun m' => !(m'.id == exMem2.id)) }
        120 exMem2.dialID)) :=
  ⟨⟨by decide, by decide, by decide,
    (claimC5_delete_rules (some exUser1) exDB 120 exMem1 exDial (by decide) (by decide)
      (by decide) (by decide) (by decide) (by decide) (by decide)).2.1
      (Or.inl (by decide)) (by decide)⟩,
   (claimC5_delete_rules (some exUser1) exDB 120 exMem2 exDial (by decide) (by decide)
      (by decide) (by decide) (by decide) (by decide) (by decide)).2.2
      (Or.inr (by decide)) (by decide)⟩

/-! ## Claim C7 -/

/-- C7: updating a membership to its current value through the service is a
no-op — the call returns the membership without error together with the
unchanged database state, so no row is written (`updated_at` keeps its old
value), no history row is added and no event is published. -/
theorem claimC7_update_noop (db : DB) (now : Time) (u : User) (m : DialMembership)
    (hm : m ∈ db.dialMemberships) (hprincipal : u.id = m.userID)
    (hnd : UniqueMembershipIDs db)
    (hd : ∃ d ∈ db.dials, d.id = m.dialID)
    (hu : ∃ u' ∈ db.users, u'.id = m.userID) :
    UpdateDialMembership (some u) db now m.id { value := some m.value } =
      .ok (m, db) := by
  have huid : userIDFromContext (some u) = m.userID := hprincipal
  have hvis : ∃ m1 ∈ db.dialMemberships, m1.dialID = m.dialID ∧
      m1.userID = userIDFromContext (some u) := ⟨m, hm, rfl, huid.symm⟩
  have hfind := findDialMembershipByID_ok (some u) db hm hnd hd hu hvis
  have htx : updateDialMembership (some u) db now m.id { value := some m.value } =
      .ok (m, db) := by
    simp only [updateDialMembership, hfind, except_bind_ok, huid]
    simp
    rfl
  obtain ⟨p, hattach⟩ := attachMembership_exists (some u) db m hd hvis hu
  simp only [UpdateDialMembership, htx, except_bind_ok, hattach]
  rfl

/-- Witness for C7 at the concrete state: jim updating his membership (value
50) to 50 returns the membership and leaves the state untouched. -/
theorem claimC7_update_noop_witness :
    (exMem2 ∈ exDB.dialMemberships ∧ exUser2.id = exMem2.userID ∧
      UniqueMembershipIDs exDB) ∧
    UpdateDialMembership (some exUser2) exDB 999 exMem2.id
        { value := some exMem2.value } = .ok (exMem2, exDB) :=
  ⟨⟨by decide, by decide, by decide⟩,
    claimC7_update_noop exDB 999 exUser2 exMem2 (by decide) (by decide) (by decide)
      (by decide) (by decide)⟩


/-! ## Claim C1 -/

/-- C1: after each membership-mutating operation commits — create membership,
update membership value, delete membership, set-membership-value by dial id —
the affected dial's stored value equals `ROUND(AVG(...))` over the current
membership values of that dial (`dialAggregateInvariant`); for the update and
set operations this requires the invariant on the affected dial beforehand,
because the unchanged-value path deliberately writes nothing. Moreover the
aggregate of a dial with zero memberships is `0`, the rounding is half away
from zero (for a nonnegative sum it is `⌊sum/len + 1/2⌋`, and it is odd under
negation), and the refresh step exits silently, leaving the database
untouched, when the dial has been deleted. -/
theorem claimC1_aggregate_invariant :
    (∀ (ctx : Ctx) (db : DB) (now : Time) (m m' : DialMembership) (db' : DB),
      UniqueDialIDs db →
      CreateDialMembership ctx db now m = .ok (m', db') →
      dialAggregateInvariant db' m'.dialID) ∧
    (∀ (ctx : Ctx) (db : DB) (now : Time) (id : Int) (upd : DialMembershipUpdate)
      (m' : DialMembership) (db' : DB),
      UniqueDialIDs db →
      dialAggregateInvariant db m'.dialID →
      UpdateDialMembership ctx db now id upd = .ok (m', db') →
      dialAggregateInvariant db' m'.dialID) ∧
    (∀ (ctx : Ctx) (db : DB) (now : Time) (id : Int) (db' : DB),
      UniqueDialIDs db →
      DeleteDialMembership ctx db now id = .ok db' →
      ∃ m0 ∈ db.dialMemberships, m0.id = id ∧ dialAggregateInvariant db' m0.dialID) ∧
    (∀ (ctx : Ctx) (db : DB) (now : Time) (dialID value : Int) (db' : DB),
      UniqueDialIDs db → UniqueMembershipIDs db →
      dialAggregateInvariant db dialID →
      SetDialMembershipValue ctx db now dialID value = .ok db' →
      dialAggregateInvariant db' dialID) ∧
    (∀ (db : DB) (now : Time) (id : Int),
      (∀ d ∈ db.dials, d.id ≠ id) → refreshDialValue db now id = db) ∧
    roundAvg [] = 0 ∧
    (∀ l : List Int, l ≠ [] → 0 ≤ l.sum →
      roundAvg l = ⌊(l.sum : ℚ) / l.length + 1/2⌋) ∧
    (∀ l : List Int, roundAvg (l.map (fun x => -x)) = -(roundAvg l)) := by
  refine ⟨?_, ?_, ?_, ?_, refreshDialValue_skip, rfl, roundAvg_halfUp, roundAvg_neg⟩
  · intro ctx db now m m' db' hnd h
    obtain ⟨hm', ⟨d, hd, hdid⟩, hdb'⟩ :=
      createDialMembership_ok_inv (CreateDialMembership_ok_inv h)
    have hdial : m'.dialID = m.dialID := by rw [hm']
    rw [hdb', hdial]
    exact refreshDialValue_invariant _ now m.dialID hnd ⟨d, hd, hdid⟩
  · intro ctx db now id upd m' db' hnd hpre h
    exact updateDialMembership_invariant hnd (UpdateDialMembership_ok_inv h) hpre
  · intro ctx db now id db' hnd h
    obtain ⟨m0, hm0, hm0id, ⟨d, hd, hdid⟩, hdb'⟩ := deleteDialMembership_ok_inv h
    refine ⟨m0, hm0, hm0id, ?_⟩
    rw [hdb']
    exact refreshDialValue_invariant _ now m0.dialID hnd ⟨d, hd, hdid⟩
  · intro ctx db now dialID value db' hnd hnm hpre h
    obtain ⟨m0, hm0, hm0d, m', hupd⟩ := setDialMembershipValue_ok_inv h
    obtain ⟨⟨mm, hmm, hmmid, hmmd⟩, -, -⟩ := updateDialMembership_ok_inv hupd
    have hmmm0 : mm = m0 :=
      mem_eq_of_nodup_key (fun m => m.id) hnm hmm hm0 (by show mm.id = m0.id; exact hmmid)
    have hdid : m'.dialID = dialID := by rw [← hmmd, hmmm0, hm0d]
    rw [← hdid] at hpre ⊢
    exact updateDialMembership_invariant hnd hupd hpre

theorem claimC1_aggregate_invariant_witness :
    UniqueDialIDs exDB ∧
    ∃ p : DialMembership × DB,
      CreateDialMembership (some exUser4) exDB 7200
        ⟨0, 1, 0, 44, 0, 0⟩ = .ok p ∧
      dialAggregateInvariant p.2 p.1.dialID := by
  refine ⟨by decide, ?_⟩
  cases hp : CreateDialMembership (some exUser4) exDB 7200 ⟨0, 1, 0, 44, 0, 0⟩ with
  | error e =>
    have hok : (CreateDialMembership (some exUser4) exDB 7200
        ⟨0, 1, 0, 44, 0, 0⟩).isOk = true := by decide
    rw [hp] at hok
    exact Bool.noConfusion hok
  | ok p =>
    exact ⟨p, rfl,
      claimC1_aggregate_invariant.1 (some exUser4) exDB 7200 _ p.1 p.2 (by decide) (by rw [hp])⟩

/-! ## Claim C6 -/

/-- C6 counterexample: `CreateDial` with an input dial whose `value` field is
`37` writes the initial history row with value `37` — the caller's
`dial.Value` — not `0` as the claim states: starting from the empty database
`exDB0`, the only history row after the call is `⟨1, 60, 37⟩`. -/
theorem claimC6_counterexample :
    (CreateDial (some exUser1) exDB0 61 "code9" exDialNew).map (fun p => p.2.dialValues) =
      .ok [⟨1, 60, 37⟩] ∧ (37 : Int) ≠ 0 :=
  ⟨rfl, by decide⟩

/-- C6 (amended): `CreateDial` with an absent principal fails unauthorized
with "You must be logged in to create a dial." and writes nothing; with a
principal present (and a fresh `dialSeq`, true in every reachable state) it
creates the dial owned by the principal with the stored row's `value`
defaulting to `0`, writes an initial history row whose value is the caller's
`dial.value` — not necessarily `0` — at the minute-truncated creation
timestamp, and creates an owner membership with value `0` in the same
transaction. -/
theorem claimC6_create_dial :
    (∀ (db : DB) (now : Time) (code : String) (dial : Dial),
      CreateDial none db now code dial =
        .error ⟨.EUNAUTHORIZED, "You must be logged in to create a dial."⟩) ∧
    (∀ (ctx : Ctx) (db : DB) (now : Time) (code : String) (dial : Dial)
      (d' : Dial) (db' : DB),
      (∀ d0 ∈ db.dials, d0.id ≠ db.dialSeq) →
      (∀ m0 ∈ db.dialMemberships, m0.dialID ≠ db.dialSeq) →
      (∀ r ∈ db.dialValues, r.dialID ≠ db.dialSeq) →
      CreateDial ctx db now code dial = .ok (d', db') →
      d' = { dial with userID := userIDFromContext ctx, inviteCode := code, createdAt := now, updatedAt := now, id := db.dialSeq } ∧
      db' = { db with dials := db.dials ++ [{ dial with userID := userIDFromContext ctx, inviteCode := code, createdAt := now, updatedAt := now, id := db.dialSeq, value := 0 }], dialMemberships := db.dialMemberships ++ [⟨db.membershipSeq, db.dialSeq, userIDFromContext ctx, 0, now, now⟩], dialValues := db.dialValues ++ [⟨db.dialSeq, timeTruncate now oneMinute, dial.value⟩], dialSeq := db.dialSeq + 1, membershipSeq := db.membershipSeq + 1 }) := by
  constructor
  · intro db now code dial
    rfl
  · intro ctx db now code dial d' db' hfd hfm hfv h
    simp only [CreateDial] at h
    split at h
    · rw [except_throw_bind] at h
      cases h
    · simp only [except_pure_bind] at h
      obtain ⟨p, hcr, hrest⟩ := except_bind_ok_inv h
      obtain ⟨d1, db1⟩ := p
      try dsimp only at hrest
      obtain ⟨u1, hatt, hret⟩ := except_bind_ok_inv hrest
      obtain ⟨hd1, hdb1⟩ := Prod.mk.inj (Except.ok.inj hret)
      obtain ⟨hd, hdb⟩ := createDial_shape hfd hfm hfv hcr
      subst hd1
      subst hdb1
      exact ⟨hd, hdb⟩

theorem claimC6_create_dial_witness :
    CreateDial none exDB0 61 "code9" exDialNew =
      .error ⟨.EUNAUTHORIZED, "You must be logged in to create a dial."⟩ ∧
    ∃ p : Dial × DB, CreateDial (some exUser1) exDB0 61 "code9" exDialNew = .ok p ∧
      p.2.dialValues = [⟨1, 60, 37⟩] ∧ p.2.dialMemberships = [⟨1, 1, 1, 0, 61, 61⟩] := by
  refine ⟨claimC6_create_dial.1 exDB0 61 "code9" exDialNew, ?_⟩
  cases hp : CreateDial (some exUser1) exDB0 61 "code9" exDialNew with
  | error e =>
    have hok : (CreateDial (some exUser1) exDB0 61 "code9" exDialNew).isOk = true := by decide
    rw [hp] at hok
    exact Bool.noConfusion hok
  | ok p =>
    have hsh := claimC6_create_dial.2 (some exUser1) exDB0 61 "code9" exDialNew p.1 p.2
      (by simp [exDB0]) (by simp [exDB0]) (by simp [exDB0]) (by rw [hp])
    refine ⟨p, rfl, ?_, ?_⟩
    · rw [hsh.2]
      rfl
    · rw [hsh.2]
      rfl

/-! ## Claim C8 -/

/-- C8 counterexample: with `end` earlier than `start` the slot count
`N = (end - start)/interval` is negative and `AverageDialValueReport` does
not return a zero-record report — the Go code calls `make([]int, N)` with a
negative length inside `findDialValueSlotsBetween` and panics, modelled here
as `none` instead of `some ⟨[]⟩`. -/
theorem claimC8_counterexample :
    AverageDialValueReport (some exUser1) exDB0 120 0 60 = none ∧
    (none ≠ some (⟨[]⟩ : DialValueReport)) :=
  ⟨rfl, fun h => Option.noConfusion h⟩

/-- C8 (amended): after truncating `start` and `end` to the interval, if the
slot count `N = (end - start)/interval` is exactly zero the report has zero
records and no failure occurs; but if `N` is negative (`end` earlier than
`start`) the operation panics (`none`) rather than returning an empty
report. -/
theorem claimC8_report_empty :
    (∀ (ctx : Ctx) (db : DB) (start finish : Time) (interval : Duration),
      Int.tdiv (timeTruncate finish interval - timeTruncate start interval) interval = 0 →
      AverageDialValueReport ctx db start finish interval = some ⟨[]⟩) ∧
    (∀ (ctx : Ctx) (db : DB) (start finish : Time) (interval : Duration),
      Int.tdiv (timeTruncate finish interval - timeTruncate start interval) interval < 0 →
      AverageDialValueReport ctx db start finish interval = none) := by
  constructor
  · intro ctx db start finish interval h
    simp [AverageDialValueReport, h]
  · intro ctx db start finish interval h
    simp only [AverageDialValueReport]
    rw [if_pos h]

theorem claimC8_report_empty_witness :
    AverageDialValueReport (some exUser1) exDB0 0 59 60 = some ⟨[]⟩ ∧
    AverageDialValueReport (some exUser1) exDB0 180 0 60 = none :=
  ⟨claimC8_report_empty.1 (some exUser1) exDB0 0 59 60 (by decide),
   claimC8_report_empty.2 (some exUser1) exDB0 180 0 60 (by decide)⟩

/-! ## Claim C9 -/

/-- C9: `PublishEvent` keeps the registry size, appends the event at the tail
of the buffer of every live subscription of exactly the published user with
spare capacity (two successive publishes therefore arrive in publish order),
evicts — unregisters and closes — a full subscription of that user instead of
blocking, and leaves everyone else untouched; closing a subscription is
idempotent: the channel close happens exactly once no matter how many times
close or eviction run. -/
theorem claimC9_event_bus :
    (∀ (svc : Inmem.EventService) (uid : Int) (ev : Event),
      (Inmem.PublishEvent svc uid ev).subs.length = svc.subs.length) ∧
    (∀ (svc : Inmem.EventService) (uid : Int) (ev : Event) (i : Nat)
      (d : Inmem.Subscription), i < svc.subs.length →
      (svc.subs.getD i d).registered = true → (svc.subs.getD i d).userID = uid →
      (svc.subs.getD i d).queue.length < Inmem.EventBufferSize →
      (Inmem.PublishEvent svc uid ev).subs.getD i d =
        { svc.subs.getD i d with queue := (svc.subs.getD i d).queue ++ [ev] }) ∧
    (∀ (svc : Inmem.EventService) (uid : Int) (ev : Event) (i : Nat)
      (d : Inmem.Subscription), i < svc.subs.length →
      (svc.subs.getD i d).registered = true → (svc.subs.getD i d).userID = uid →
      ¬((svc.subs.getD i d).queue.length < Inmem.EventBufferSize) →
      (Inmem.PublishEvent svc uid ev).subs.getD i d =
        Inmem.unsubscribeSub (svc.subs.getD i d)) ∧
    (∀ (svc : Inmem.EventService) (uid : Int) (ev : Event) (i : Nat)
      (d : Inmem.Subscription), i < svc.subs.length →
      ((svc.subs.getD i d).registered = false ∨ (svc.subs.getD i d).userID ≠ uid) →
      (Inmem.PublishEvent svc uid ev).subs.getD i d = svc.subs.getD i d) ∧
    (∀ (svc : Inmem.EventService) (uid : Int) (e1 e2 : Event) (i : Nat)
      (d : Inmem.Subscription), i < svc.subs.length →
      (svc.subs.getD i d).registered = true → (svc.subs.getD i d).userID = uid →
      (svc.subs.getD i d).queue.length + 1 < Inmem.EventBufferSize →
      (Inmem.PublishEvent (Inmem.PublishEvent svc uid e1) uid e2).subs.getD i d =
        { svc.subs.getD i d with queue := (svc.subs.getD i d).queue ++ [e1, e2] }) ∧
    (∀ s : Inmem.Subscription,
      Inmem.unsubscribeSub (Inmem.unsubscribeSub s) = Inmem.unsubscribeSub s) ∧
    (∀ s : Inmem.Subscription, s.onceDone = false →
      (Inmem.unsubscribeSub s).closeCount = s.closeCount + 1) ∧
    (∀ s : Inmem.Subscription, s.onceDone = true →
      (Inmem.unsubscribeSub s).closeCount = s.closeCount) ∧
    (∀ s : Inmem.Subscription, (Inmem.unsubscribeSub s).registered = false) := by
  refine ⟨publishEvent_subs_length, ?_, ?_, ?_, ?_, ?_, ?_, ?_, fun s => rfl⟩
  · intro svc uid ev i d hi hr hu hlen
    rw [publishEvent_getD svc uid ev i hi d]
    simp only [List.getD_eq_getElem?_getD] at hr hu hlen
    simp [hr, hu, hlen]
  · intro svc uid ev i d hi hr hu hlen
    rw [publishEvent_getD svc uid ev i hi d]
    simp only [List.getD_eq_getElem?_getD] at hr hu hlen
    simp [hr, hu, hlen]
  · intro svc uid ev i d hi hcase
    rw [publishEvent_getD svc uid ev i hi d]
    simp only [List.getD_eq_getElem?_getD] at hcase
    cases hcase with
    | inl h => simp [h]
    | inr h => simp [h, beq_iff_eq]
  · intro svc uid e1 e2 i d hi hr hu hlen
    have h1 : (Inmem.PublishEvent svc uid e1).subs.getD i d =
        { svc.subs.getD i d with queue := (svc.subs.getD i d).queue ++ [e1] } := by
      rw [publishEvent_getD svc uid e1 i hi d]
      have hlt : (svc.subs.getD i d).queue.length < Inmem.EventBufferSize := by omega
      simp only [List.getD_eq_getElem?_getD] at hr hu hlt
      simp [hr, hu, hlt]
    have hi1 : i < (Inmem.PublishEvent svc uid e1).subs.length := by
      rw [publishEvent_subs_length]
      exact hi
    rw [publishEvent_getD (Inmem.PublishEvent svc uid e1) uid e2 i hi1 d, h1]
    have hlen1 : ((svc.subs.getD i d).queue ++ [e1]).length < Inmem.EventBufferSize := by
      rw [List.length_append, List.length_singleton]
      omega
    simp only [List.getD_eq_getElem?_getD] at hr hu hlen hlen1
    simp [hr, hu, hlen, hlen1, List.append_assoc]
  · intro s
    unfold Inmem.unsubscribeSub Inmem.onceClose
    by_cases h : s.onceDone <;> simp [h]
  · intro s h
    simp [Inmem.unsubscribeSub, Inmem.onceClose, h]
  · intro s h
    simp [Inmem.unsubscribeSub, Inmem.onceClose, h]

theorem claimC9_event_bus_witness :
    (0 : Nat) < (⟨[Inmem.newSubscription 7]⟩ : Inmem.EventService).subs.length ∧
    ((⟨[Inmem.newSubscription 7]⟩ : Inmem.EventService).subs.getD 0
      (Inmem.newSubscription 0)).registered = true ∧
    (Inmem.PublishEvent ⟨[Inmem.newSubscription 7]⟩ 7
        ⟨EventTypeDialValueChanged, .dialValueChanged 1 25⟩).subs.getD 0
        (Inmem.newSubscription 0) =
      { Inmem.newSubscription 7 with
        queue := [⟨EventTypeDialValueChanged, .dialValueChanged 1 25⟩] } ∧
    (Inmem.unsubscribeSub (Inmem.newSubscription 7)).closeCount = 1 := by
  refine ⟨by decide, by decide, ?_, ?_⟩
  · have h := claimC9_event_bus.2.1 ⟨[Inmem.newSubscription 7]⟩ 7
      ⟨EventTypeDialValueChanged, .dialValueChanged 1 25⟩ 0 (Inmem.newSubscription 0)
      (by decide) (by decide) (by decide) (by decide)
    rw [h]
    decide
  · exact claimC9_event_bus.2.2.2.2.2.2.1 (Inmem.newSubscription 7) rfl

/-! ## Claim C3 -/

/-- C3 counterexample: two genuine divergences from the claimed report
semantics. (a) When `end` precedes `start` the slot count is negative and no
report is produced at all — the Go code panics at `AverageDialValueReport`'s
own `make` — so "returns N records" fails on those inputs. (b) A stored
history value of `-1` (reachable: `createDial` writes the caller's
unvalidated `dial.Value` into the history table, and `Dial.Validate` never
checks the value range) collides with the code's `-1` empty-slot sentinel:
carry-forward silently replaces it with the previous value, so the produced
report differs from the claimed slot semantics (`specReport`), which requires
that slot to hold `-1`. -/
theorem claimC3_counterexample :
    (AverageDialValueReport (some exUser1) exDB0 240 0 60 = none ∧
      ∀ rep : DialValueReport, (none : Option DialValueReport) ≠ some rep) ∧
    AverageDialValueReport (some exUser1) exDBNeg 0 120 60 ≠
      some (specReport (some exUser1) exDBNeg 0 120 60) :=
  ⟨⟨rfl, fun _ h => Option.noConfusion h⟩, by decide⟩

/-- C3 (amended): restricted to inputs and states where the code's two
divergences (see the counterexample) cannot fire — `start ≤ end` after
truncation to the interval (otherwise the code panics instead of reporting),
and no stored history value below `0` (a genuine restriction, not a
reachable-state invariant: `createDial` records the caller's unvalidated
`dial.Value`, and a stored `-1` is conflated with the code's empty-slot
sentinel and silently replaced by carry-forward) — and with unique
`(dial_id, timestamp)` history keys (schema primary key),
`AverageDialValueReport` returns exactly the report described by the claim
(`specReport`): `N = (end - start)/interval` records with timestamps
`start + i*interval`, record `i` holding the floored average over the
principal's visible dials of each dial's slot-`i` value, where a dial's slot
array is seeded at slot 0 from the latest history row at or before `start`
(`0` if none), history points inside `[start, end)` land at slot
`(ts - start)/interval`, and empty slots are filled left-to-right by
carry-forward. -/
theorem claimC3_report :
    ∀ (ctx : Ctx) (db : DB) (start finish : Time) (interval : Duration),
      oneMinute ≤ interval →
      timeTruncate start interval ≤ timeTruncate finish interval →
      UniqueValueKeys db.dialValues →
      (∀ r ∈ db.dialValues, 0 ≤ r.value) →
      AverageDialValueReport ctx db start finish interval =
        some (specReport ctx db start finish interval) := by
  intro ctx db start finish interval hmin hse hnd hv
  have hipos : 0 < interval := lt_of_lt_of_le (by norm_num [oneMinute]) hmin
  simp only [AverageDialValueReport, specReport]
  rw [if_neg (not_lt.mpr (Int.tdiv_nonneg (sub_nonneg.mpr hse) (le_of_lt hipos)))]
  refine congrArg some ?_
  refine congrArg DialValueReport.mk ?_
  refine List.map_congr_left ?_
  intro i hirange
  have hmap : (findDials ctx db {}).1.map (fun d => findDialValueSlotsBetween db d.id (timeTruncate start interval) (timeTruncate finish interval) interval) = (findDials ctx db {}).1.map (fun d => specSlots db d.id (timeTruncate start interval) (timeTruncate finish interval) interval (Int.tdiv (timeTruncate finish interval - timeTruncate start interval) interval).toNat) :=
    List.map_congr_left (fun d _ => slots_eq db d.id (timeTruncate start interval) (timeTruncate finish interval) interval hnd hv hipos)
  rw [hmap]
  rw [show (findDials ctx db {}).1.length =
    ((findDials ctx db {}).1.map (fun d => specSlots db d.id (timeTruncate start interval) (timeTruncate finish interval) interval (Int.tdiv (timeTruncate finish interval - timeTruncate start interval) interval).toNat)).length from (List.length_map _ _).symm]
  rw [tdiv_avg_eq_specAvgAt ((findDials ctx db {}).1.map (fun d => specSlots db d.id (timeTruncate start interval) (timeTruncate finish interval) interval (Int.tdiv (timeTruncate finish interval - timeTruncate start interval) interval).toNat)) i ?_]
  intro vs hvs v hv'
  obtain ⟨d, hd, rfl⟩ := List.mem_map.mp hvs
  exact specSlots_nonneg db d.id (timeTruncate start interval) (timeTruncate finish interval) interval (Int.tdiv (timeTruncate finish interval - timeTruncate start interval) interval).toNat hv v hv'

theorem claimC3_report_witness :
    AverageDialValueReport (some exUser1) exDB 0 120 60 =
      some (specReport (some exUser1) exDB 0 120 60) :=
  claimC3_report (some exUser1) exDB 0 120 60 (by decide) (by decide) (by decide)
    (by
      intro r hr
      simp only [exDB, List.mem_cons, List.not_mem_nil, or_false] at hr
      rcases hr with rfl | rfl <;> decide)

end Wtf
